import Mathlib

/-!
# Kibana mappings-editor validator — formal model

A shallow embedding of the index-management mappings validator described by
the repository specification and exercised by
`x-pack/plugins/index_management/public/application/components/mappings_editor/lib/mappings_validator.test.ts`.
The implementation file `mappings_validator.ts` itself is not part of the
source slice; the validator definitions below are therefore modelled from the
specification (sections 4.1, 4.2, 7 and 8), with the test file fixing the
observable behaviour they must reproduce.

Inputs and outputs are JSON-like runtime values.  JavaScript numbers are
modelled as integers: every shape predicate of the validator only inspects
whether a value *is* a number, never its magnitude, so no behaviour of the
validator depends on the distinction.  JavaScript objects are modelled as
insertion-ordered association lists, matching the key-enumeration order
semantics the tests rely on.
-/

/-- A JSON-like runtime value.  `undef` models JavaScript `undefined`;
`obj` keeps fields in insertion order. -/
inductive JsonValue where
  | str (s : String)
  | num (n : Int)
  | bool (b : Bool)
  | null
  | undef
  | arr (items : List JsonValue)
  | obj (fields : List (String × JsonValue))

namespace JsonValue

mutual

/-- Structural boolean equality on values (the deriving handler does not
cover the nested `List` positions, so it is written by hand). -/
def beq : JsonValue → JsonValue → Bool
  | str a, str b => a == b
  | num a, num b => a == b
  | bool a, bool b => a == b
  | null, null => true
  | undef, undef => true
  | arr xs, arr ys => beqItems xs ys
  | obj xs, obj ys => beqEntries xs ys
  | _, _ => false

/-- Positionwise `beq` on array elements. -/
def beqItems : List JsonValue → List JsonValue → Bool
  | [], [] => true
  | x :: xs, y :: ys => beq x y && beqItems xs ys
  | _, _ => false

/-- Positionwise `beq` on object fields: names, values and order all count. -/
def beqEntries : List (String × JsonValue) → List (String × JsonValue) → Bool
  | [], [] => true
  | (k, v) :: xs, (l, w) :: ys => k == l && beq v w && beqEntries xs ys
  | _, _ => false

end

mutual

/-- `beq` answers `true` exactly on equal values. -/
theorem beq_iff_eq : ∀ a b : JsonValue, beq a b = true ↔ a = b
  | str _, str _ => by simp [beq]
  | num _, num _ => by simp [beq]
  | bool _, bool _ => by simp [beq]
  | null, null => by simp [beq]
  | undef, undef => by simp [beq]
  | arr xs, arr ys => by simp [beq, beqItems_iff_eq xs ys]
  | obj xs, obj ys => by simp [beq, beqEntries_iff_eq xs ys]
  | str _, num _ | str _, bool _ | str _, null | str _, undef | str _, arr _ | str _, obj _
  | num _, str _ | num _, bool _ | num _, null | num _, undef | num _, arr _ | num _, obj _
  | bool _, str _ | bool _, num _ | bool _, null | bool _, undef | bool _, arr _ | bool _, obj _
  | null, str _ | null, num _ | null, bool _ | null, undef | null, arr _ | null, obj _
  | undef, str _ | undef, num _ | undef, bool _ | undef, null | undef, arr _ | undef, obj _
  | arr _, str _ | arr _, num _ | arr _, bool _ | arr _, null | arr _, undef | arr _, obj _
  | obj _, str _ | obj _, num _ | obj _, bool _ | obj _, null | obj _, undef | obj _, arr _ =>
      by simp [beq]

/-- `beqItems` answers `true` exactly on equal element lists. -/
theorem beqItems_iff_eq : ∀ xs ys : List JsonValue, beqItems xs ys = true ↔ xs = ys
  | [], [] => by simp [beqItems]
  | x :: xs, y :: ys => by simp [beqItems, beq_iff_eq x y, beqItems_iff_eq xs ys]
  | [], _ :: _ => by simp [beqItems]
  | _ :: _, [] => by simp [beqItems]

/-- `beqEntries` answers `true` exactly on equal field lists. -/
theorem beqEntries_iff_eq :
    ∀ xs ys : List (String × JsonValue), beqEntries xs ys = true ↔ xs = ys
  | [], [] => by simp [beqEntries]
  | (k, v) :: xs, (l, w) :: ys => by
      simp [beqEntries, beq_iff_eq v w, beqEntries_iff_eq xs ys, and_assoc]
  | [], _ :: _ => by simp [beqEntries]
  | _ :: _, [] => by simp [beqEntries]

end

instance : DecidableEq JsonValue := fun a b => decidable_of_iff _ (beq_iff_eq a b)

end JsonValue

namespace MappingsValidator

open JsonValue

/-- Structured validation error (spec section 3, `ValidationError`): a tagged
union of `ERR_CONFIG` (with the offending top-level config name), `ERR_FIELD`
(with the dotted field path) and `ERR_PARAMETER` (field path and parameter
name). -/
inductive ValidationError where
  | config (configName : String)
  | field (fieldPath : String)
  | parameter (fieldPath : String) (paramName : String)
deriving DecidableEq

/-- lodash `isPlainObject`, specialised to JSON-like values: true exactly on
object literals, false on strings, numbers, booleans, null, undefined and
arrays. -/
def isPlainObject : JsonValue → Bool
  | .obj _ => true
  | _ => false

/-- The value is a JavaScript string. -/
def isStringValue : JsonValue → Bool
  | .str _ => true
  | _ => false

/-- The value is a JavaScript number. -/
def isNumberValue : JsonValue → Bool
  | .num _ => true
  | _ => false

/-- The value is a JavaScript boolean. -/
def isBoolValue : JsonValue → Bool
  | .bool _ => true
  | _ => false

/-- The value is an array. -/
def isArrayValue : JsonValue → Bool
  | .arr _ => true
  | _ => false

/-- The value is an array each of whose elements is a string. -/
def isArrayOfStrings : JsonValue → Bool
  | .arr xs => xs.all isStringValue
  | _ => false

/-- Shape of `copy_to` (spec 4.2 step 5): a single string or an array of
strings. -/
def isStringOrArrayOfStrings (v : JsonValue) : Bool :=
  isStringValue v || isArrayOfStrings v

/-- Shape of the legacy boolean parameters such as `null_value_boolean`
(spec 4.2 step 5): `true`/`false` or the strings `"true"`/`"false"`. -/
def isBoolOrBoolString : JsonValue → Bool
  | .bool _ => true
  | .str s => s == "true" || s == "false"
  | _ => false

/-- Shape of the `dynamic` parameter (spec 4.2 step 5): exactly `true`,
`false`, `"strict"`, `"true"`, `"false"` or `"runtime"`. -/
def isDynamicValue : JsonValue → Bool
  | .bool _ => true
  | .str s => s == "strict" || s == "true" || s == "false" || s == "runtime"
  | _ => false

/-- A plain object all of whose values are numbers (used by
`fielddata_frequency_filter` and `index_prefixes`, whose sub-keys are numeric
per the test fixtures). -/
def isNumericObject : JsonValue → Bool
  | .obj fields => fields.all fun e => isNumberValue e.2
  | _ => false

/-- Any value is accepted (`null_value`, whose shape is unconstrained). -/
def isAnyValue : JsonValue → Bool := fun _ => true

/-- Modelled from the spec: the Field-Type Parameter Schema (spec section 2
and 4.2 steps 4-5) of the absent `mappings_validator.ts` /
parameter-definitions module — the table from known parameter name to that
parameter's shape predicate.  Boolean-, number- and string-shaped parameters
follow spec 4.2 step 5 and the accept/reject pairs pinned by the test file's
`wrongField`/`goodField` fixture. -/
def parametersDefinition : List (String × (JsonValue → Bool)) :=
  [("store", isBoolValue),
   ("index", isBoolValue),
   ("doc_values", isBoolValue),
   ("doc_values_binary", isBoolValue),
   ("fielddata", isBoolValue),
   ("fielddata_frequency_filter", isNumericObject),
   ("coerce", isBoolValue),
   ("coerce_shape", isBoolValue),
   ("ignore_malformed", isBoolValue),
   ("null_value", isAnyValue),
   ("null_value_numeric", isNumberValue),
   ("null_value_boolean", isBoolOrBoolString),
   ("copy_to", isStringOrArrayOfStrings),
   ("max_input_length", isNumberValue),
   ("locale", isStringValue),
   ("orientation", isStringValue),
   ("boost", isNumberValue),
   ("scaling_factor", isNumberValue),
   ("dynamic", isDynamicValue),
   ("enabled", isBoolValue),
   ("format", isStringValue),
   ("analyzer", isStringValue),
   ("search_analyzer", isStringValue),
   ("search_quote_analyzer", isStringValue),
   ("normalizer", isStringValue),
   ("index_options", isStringValue),
   ("index_options_keyword", isStringValue),
   ("index_options_flattened", isStringValue),
   ("eager_global_ordinals", isBoolValue),
   ("index_phrases", isBoolValue),
   ("preserve_separators", isBoolValue),
   ("preserve_position_increments", isBoolValue),
   ("ignore_z_value", isBoolValue),
   ("points_only", isBoolValue),
   ("norms", isBoolValue),
   ("norms_keyword", isBoolValue),
   ("term_vector", isStringValue),
   ("path", isStringValue),
   ("position_increment_gap", isNumberValue),
   ("index_prefixes", isNumericObject),
   ("similarity", isStringValue),
   ("split_queries_on_whitespace", isBoolValue),
   ("ignore_above", isNumberValue),
   ("enable_position_increments", isBoolValue),
   ("depth_limit", isNumberValue),
   ("dims", isStringValue),
   ("max_shingle_size", isNumberValue)]

/-- Modelled from the spec: the recognized field type names (spec section 3:
a leaf has a string `type`; `object`/`nested` are the container types; the
tests exercise `text` and `keyword` as recognized and `clearlyUnknown` as
unrecognized). -/
def dataTypes : List String := ["text", "keyword", "object", "nested"]

/-- Shape of the `_source` top-level config (spec 4.1): an object with only
`includes`/`excludes`/`enabled` sub-keys of the correct types. -/
def isSourceEntry : String × JsonValue → Bool
  | ("enabled", v) => isBoolValue v
  | ("includes", v) => isArrayOfStrings v
  | ("excludes", v) => isArrayOfStrings v
  | _ => false

/-- `_source` predicate: a plain object each of whose entries is one of the
three recognized sub-keys with a value of the right shape. -/
def isSourceConfig : JsonValue → Bool
  | .obj fields => fields.all isSourceEntry
  | _ => false

/-- `_routing` predicate: a plain object whose only sub-key is a boolean
`required`. -/
def isRoutingConfig : JsonValue → Bool
  | .obj fields => fields.all fun e => e.1 == "required" && isBoolValue e.2
  | _ => false

/-- Shape shared by `_data_stream_timestamp` and the Mapper Size plugin's
`_size`: a plain object whose only sub-key is a boolean `enabled`. -/
def isEnabledObjectConfig : JsonValue → Bool
  | .obj fields => fields.all fun e => e.1 == "enabled" && isBoolValue e.2
  | _ => false

/-- Modelled from the spec: the fixed canonical order of recognized top-level
configuration keys and their shape predicates (spec 4.1).  The order places
`_source` before `dynamic_date_formats` before `numeric_detection`, the
canonical error order the test file pins. -/
def configurationKeys : List (String × (JsonValue → Bool)) :=
  [("dynamic", isDynamicValue),
   ("date_detection", isBoolValue),
   ("_source", isSourceConfig),
   ("dynamic_date_formats", isArrayOfStrings),
   ("numeric_detection", isBoolValue),
   ("_meta", isPlainObject),
   ("_routing", isRoutingConfig),
   ("_data_stream_timestamp", isEnabledObjectConfig)]

/-- The Mapper Size plugin id gating the `_size` top-level key. -/
def MapperSizePluginId : String := "mapper-size"

/-- Modelled from the spec: the plugin-gated top-level keys (spec 4.1): key
name, shape predicate, and the plugin id that must be enabled for the key to
be recognized. -/
def pluginKeys : List (String × ((JsonValue → Bool) × String)) :=
  [("_size", (isEnabledObjectConfig, MapperSizePluginId))]

/-- Dotted field paths: `parentPath + "." + fieldName`, or just `fieldName`
at depth 0 (spec 4.2 step 1). -/
def joinPath (parentPath fieldName : String) : String :=
  if parentPath = "" then fieldName else parentPath ++ "." ++ fieldName

mutual

/-- Modelled from the spec: the recursive traversal of a `properties` object
(spec 4.2, steps 1-5) of the absent `mappings_validator.ts`.  Entries are
processed in input order and independently: a non-plain-object entry is
dropped with `ERR_FIELD`; an entry whose `type` is present but is not a
recognized type-name string is dropped with `ERR_FIELD`; an entry with no
`type` gets `type: "object"` prepended; otherwise the field's own entries are
walked by `validateFieldEntries`. -/
def validateFields (parentPath : String) :
    List (String × JsonValue) → List (String × JsonValue) × List ValidationError
  | [] => ([], [])
  | (name, v) :: rest =>
      let restResult := validateFields parentPath rest
      match v with
      | .obj fieldEntries =>
          match List.lookup "type" fieldEntries with
          | none =>
              let node := validateFieldEntries (joinPath parentPath name) fieldEntries
              ((name, .obj (("type", .str "object") :: node.1)) :: restResult.1,
                node.2 ++ restResult.2)
          | some (.str t) =>
              if t ∈ dataTypes then
                let node := validateFieldEntries (joinPath parentPath name) fieldEntries
                ((name, .obj node.1) :: restResult.1, node.2 ++ restResult.2)
              else
                (restResult.1, .field (joinPath parentPath name) :: restResult.2)
          | some _ =>
              (restResult.1, .field (joinPath parentPath name) :: restResult.2)
      | _ => (restResult.1, .field (joinPath parentPath name) :: restResult.2)

/-- Modelled from the spec: the per-field walk over one field definition's
entries (spec 4.2 steps 3-5).  A `type` entry is kept as is; a `properties`
entry is validated recursively with the dotted path extended; every other
entry is looked up in `parametersDefinition` and kept exactly when it is a
known parameter whose value passes that parameter's shape predicate, and
otherwise dropped with `ERR_PARAMETER`.  Surviving entries keep input order;
errors are emitted in entry order. -/
def validateFieldEntries (fieldPath : String) :
    List (String × JsonValue) → List (String × JsonValue) × List ValidationError
  | [] => ([], [])
  | (key, v) :: rest =>
      let restResult := validateFieldEntries fieldPath rest
      if key = "type" then
        ((key, v) :: restResult.1, restResult.2)
      else if key = "properties" then
        match v with
        | .obj sub =>
            let nested := validateFields fieldPath sub
            ((key, .obj nested.1) :: restResult.1, nested.2 ++ restResult.2)
        | _ => ((key, .obj []) :: restResult.1, restResult.2)
      else
        match List.lookup key parametersDefinition with
        | some pred =>
            if pred v then ((key, v) :: restResult.1, restResult.2)
            else (restResult.1, .parameter fieldPath key :: restResult.2)
        | none => (restResult.1, .parameter fieldPath key :: restResult.2)

end

/-- Result of the Properties Validator (spec 4.2 contract): the cleaned
mapping from field name to field node, and an always-present (possibly
empty) error list. -/
structure PropertiesValidatorResponse where
  value : List (String × JsonValue)
  errors : List ValidationError
deriving DecidableEq

/-- Result of the Mappings Validator (spec 4.1 contract): the cleaned
top-level configuration, and `none` (JavaScript `undefined`) when no error
occurred, `some` of the non-empty error list otherwise. -/
structure MappingsValidatorResponse where
  value : JsonValue
  errors : Option (List ValidationError)
deriving DecidableEq

/-- Modelled from the spec: `validateProperties` (spec 4.2): a non-plain
object yields an empty mapping and an empty error list; a plain object is
traversed by `validateFields` from the empty parent path. -/
def validateProperties (input : JsonValue) : PropertiesValidatorResponse :=
  match input with
  | .obj entries =>
      let r := validateFields "" entries
      ⟨r.1, r.2⟩
  | _ => ⟨[], []⟩

/-- `ERR_CONFIG` errors of the recognized top-level keys, in the fixed
canonical `configurationKeys` order: one error per present key whose value
fails its shape predicate (spec 4.1). -/
def configKeyErrors (entries : List (String × JsonValue)) : List ValidationError :=
  configurationKeys.filterMap fun kp =>
    match List.lookup kp.1 entries with
    | some v => if kp.2 v then none else some (.config kp.1)
    | none => none

/-- `ERR_CONFIG` errors of the plugin-gated top-level keys: one error per
present key that is not both plugin-enabled and shape-valid (spec 4.1). -/
def pluginKeyErrors (entries : List (String × JsonValue))
    (enabledPluginIds : List String) : List ValidationError :=
  pluginKeys.filterMap fun kp =>
    match List.lookup kp.1 entries with
    | some v =>
        if enabledPluginIds.contains kp.2.2 && kp.2.1 v then none
        else some (.config kp.1)
    | none => none

/-- A top-level key name the validator knows at all: `properties`,
`dynamic_templates`, a recognized configuration key, or a plugin-gated key
(whether or not its plugin is enabled). -/
def isRecognizedKey (k : String) : Bool :=
  k == "properties" || k == "dynamic_templates" ||
    (List.lookup k configurationKeys).isSome || (List.lookup k pluginKeys).isSome

/-- `ERR_CONFIG` errors of the unrecognized top-level keys, in input order
(spec 4.1). -/
def unknownKeyErrors (entries : List (String × JsonValue)) : List ValidationError :=
  entries.filterMap fun e =>
    if isRecognizedKey e.1 then none else some (.config e.1)

/-- Which top-level entries survive into the returned value, in input order:
`properties` is replaced by the cleaned properties, `dynamic_templates` is
kept when an array and reset to `[]` otherwise, a recognized key is kept
exactly when its value passes the key's predicate, an enabled plugin key
likewise, and everything else is dropped (spec 4.1). -/
def keepTopLevelEntry (enabledPluginIds : List String)
    (propsValue : List (String × JsonValue)) :
    String × JsonValue → Option (String × JsonValue)
  | (k, v) =>
      if k = "properties" then some (k, .obj propsValue)
      else if k = "dynamic_templates" then
        some (k, if isArrayValue v then v else .arr [])
      else
        match List.lookup k configurationKeys with
        | some pred => if pred v then some (k, v) else none
        | none =>
            match List.lookup k pluginKeys with
            | some pp =>
                if enabledPluginIds.contains pp.2 && pp.1 v then some (k, v)
                else none
            | none => none

/-- Modelled from the spec: `validateMappings` (spec 4.1) of the absent
`mappings_validator.ts`.  A non-plain-object input yields an empty object and
`undefined` errors.  A plain object keeps its valid entries in input order,
delegates `properties` to the Properties Validator, normalizes
`dynamic_templates` (kept when an array, else `[]`, always present in the
output, as is `properties`), and reports `ERR_CONFIG` errors in canonical
configuration-key order, then plugin-key order, then unrecognized keys in
input order, followed by the properties errors; `errors` is `none` exactly
when no error occurred. -/
def validateMappings (input : JsonValue) (enabledPluginIds : List String) :
    MappingsValidatorResponse :=
  match input with
  | .obj entries =>
      let props := validateProperties ((List.lookup "properties" entries).getD .undef)
      let kept := entries.filterMap (keepTopLevelEntry enabledPluginIds props.value)
      let withProps :=
        if (List.lookup "properties" entries).isSome then kept
        else kept ++ [("properties", .obj props.value)]
      let value :=
        if (List.lookup "dynamic_templates" entries).isSome then withProps
        else withProps ++ [("dynamic_templates", .arr [])]
      let errors := configKeyErrors entries ++ pluginKeyErrors entries enabledPluginIds ++
        unknownKeyErrors entries ++ props.errors
      ⟨.obj value, if errors.isEmpty then none else some errors⟩
  | _ => ⟨.obj [], none⟩



/-! ## Per-entry decomposition of the traversal

`validateFields` and `validateFieldEntries` treat every entry independently
of its siblings: each is a `filterMap` for the surviving entries paired with
a `flatMap` for the emitted errors.  The two functions below name the
contribution of one entry, and the decomposition lemmas state the equality.
-/

/-- What a single properties entry contributes to the cleaned mapping:
`none` when the entry is dropped (non-object value, or unrecognized `type`),
the cleaned field node otherwise. -/
def fieldEntryValue (parentPath : String) (e : String × JsonValue) :
    Option (String × JsonValue) :=
  match e with
  | (name, .obj fieldEntries) =>
      match List.lookup "type" fieldEntries with
      | none =>
          some (name, .obj (("type", .str "object") ::
            (validateFieldEntries (joinPath parentPath name) fieldEntries).1))
      | some (.str t) =>
          if t ∈ dataTypes then
            some (name, .obj (validateFieldEntries (joinPath parentPath name) fieldEntries).1)
          else none
      | some _ => none
  | _ => none

/-- The errors a single properties entry contributes: one `ERR_FIELD` at the
entry's dotted path when it is dropped, and the field's own parameter and
nested errors otherwise. -/
def fieldEntryErrors (parentPath : String) (e : String × JsonValue) :
    List ValidationError :=
  match e with
  | (name, .obj fieldEntries) =>
      match List.lookup "type" fieldEntries with
      | none => (validateFieldEntries (joinPath parentPath name) fieldEntries).2
      | some (.str t) =>
          if t ∈ dataTypes then
            (validateFieldEntries (joinPath parentPath name) fieldEntries).2
          else [.field (joinPath parentPath name)]
      | some _ => [.field (joinPath parentPath name)]
  | (name, _) => [.field (joinPath parentPath name)]

/-- What a single entry of a field definition contributes to the cleaned
node: `type` and (validated) `properties` always survive; any other entry
survives exactly when it is a known parameter whose value passes its shape
predicate. -/
def paramEntryValue (fieldPath : String) (e : String × JsonValue) :
    Option (String × JsonValue) :=
  if e.1 = "type" then some e
  else if e.1 = "properties" then
    match e.2 with
    | .obj sub => some (e.1, .obj (validateFields fieldPath sub).1)
    | _ => some (e.1, .obj [])
  else
    match List.lookup e.1 parametersDefinition with
    | some pred => if pred e.2 then some e else none
    | none => none

/-- The errors a single entry of a field definition contributes: nested
errors for `properties`, one `ERR_PARAMETER` for an unknown or malformed
parameter, nothing otherwise. -/
def paramEntryErrors (fieldPath : String) (e : String × JsonValue) :
    List ValidationError :=
  if e.1 = "type" then []
  else if e.1 = "properties" then
    match e.2 with
    | .obj sub => (validateFields fieldPath sub).2
    | _ => []
  else
    match List.lookup e.1 parametersDefinition with
    | some pred => if pred e.2 then [] else [.parameter fieldPath e.1]
    | none => [.parameter fieldPath e.1]

/-- The properties traversal processes entries independently and in order:
it is the `filterMap` of the per-entry value paired with the `flatMap` of
the per-entry errors. -/
theorem validateFields_eq_decomp (parentPath : String) (l : List (String × JsonValue)) :
    validateFields parentPath l =
      (l.filterMap (fieldEntryValue parentPath), l.flatMap (fieldEntryErrors parentPath)) := by
  induction l with
  | nil => simp [validateFields]
  | cons e rest ih =>
      obtain ⟨name, v⟩ := e
      cases v with
      | obj fieldEntries =>
          rcases h : List.lookup "type" fieldEntries with _ | tv
          · simp [validateFields, fieldEntryValue, fieldEntryErrors, h, ih]
          · cases tv with
            | str t =>
                by_cases ht : t ∈ dataTypes <;>
                  simp [validateFields, fieldEntryValue, fieldEntryErrors, h, ht, ih]
            | _ => simp [validateFields, fieldEntryValue, fieldEntryErrors, h, ih]
      | _ => simp [validateFields, fieldEntryValue, fieldEntryErrors, ih]

/-- The per-field walk processes a field's entries independently and in
order: it is the `filterMap` of the per-entry value paired with the
`flatMap` of the per-entry errors. -/
theorem validateFieldEntries_eq_decomp (fieldPath : String) (l : List (String × JsonValue)) :
    validateFieldEntries fieldPath l =
      (l.filterMap (paramEntryValue fieldPath), l.flatMap (paramEntryErrors fieldPath)) := by
  induction l with
  | nil => simp [validateFieldEntries]
  | cons e rest ih =>
      obtain ⟨key, v⟩ := e
      rw [validateFieldEntries.eq_def]
      by_cases hty : key = "type"
      · subst hty
        simp [paramEntryValue, paramEntryErrors, ih]
      · by_cases hpr : key = "properties"
        · subst hpr
          cases v <;>
            simp [paramEntryValue, paramEntryErrors, hty, ih]
        · rcases h : List.lookup key parametersDefinition with _ | pred
          · simp [paramEntryValue, paramEntryErrors, hty, hpr, h, ih]
          · by_cases hv : pred v <;>
              simp [paramEntryValue, paramEntryErrors, hty, hpr, h, hv, ih]

/-! ## Paths and the shape of emitted errors -/

/-- The path-like component an error reports: the config name, the field
path, or the parameter's field path. -/
def errPath : ValidationError → String
  | .config n => n
  | .field p => p
  | .parameter p _ => p

theorem joinPath_empty (a : String) : joinPath "" a = a := by
  simp [joinPath]

/-- With a fixed parent, distinct names give distinct dotted paths. -/
theorem joinPath_inj {p a b : String} (h : joinPath p a = joinPath p b) : a = b := by
  by_cases hp : p = ""
  · simpa [joinPath, hp] using h
  · have hd := congrArg String.data h
    simp only [joinPath, hp, if_neg hp, String.data_append] at hd
    exact String.ext (by simpa using hd)

/-- Extending a dotted path by one more segment is joining with the dotted
name. -/
theorem joinPath_extend (p a t : String) :
    joinPath p a ++ "." ++ t = joinPath p (a ++ "." ++ t) := by
  by_cases hp : p = "" <;> simp [joinPath, hp, String.append_assoc]

/-- A dotted path is nonempty as soon as the parent or the name is. -/
theorem joinPath_ne_empty {p a : String} (h : p ≠ "" ∨ a ≠ "") : joinPath p a ≠ "" := by
  by_cases hp : p = ""
  · rcases h with h | h
    · exact absurd hp h
    · simpa [joinPath, hp] using h
  · intro hcon
    simp only [joinPath, if_neg hp] at hcon
    have hlen := congrArg String.length hcon
    rw [String.length_append, String.length_append] at hlen
    have h1 : String.length "." = 1 := rfl
    have h0 : String.length "" = 0 := rfl
    omega

/-- A field list nested in one of the entries of `l` is smaller than `l`. -/
theorem sizeOf_nested_lt {name : String} {fe l : List (String × JsonValue)}
    (h : (name, JsonValue.obj fe) ∈ l) : sizeOf fe < sizeOf l := by
  have h1 := List.sizeOf_lt_of_mem h
  simp at h1
  omega

/-- Strong-induction core: the properties traversal never emits `ERR_CONFIG`
(at either level of the mutual recursion). -/
theorem no_config_error_aux :
    ∀ n (p : String) (l : List (String × JsonValue)), sizeOf l ≤ n →
      (∀ err ∈ (validateFields p l).2, ∀ c, err ≠ .config c) ∧
      (∀ err ∈ (validateFieldEntries p l).2, ∀ c, err ≠ .config c) := by
  intro n
  induction n using Nat.strong_induction_on with
  | _ n ih =>
    intro p l hn
    constructor
    · intro err hmem c
      rw [validateFields_eq_decomp] at hmem
      simp only [List.mem_flatMap] at hmem
      obtain ⟨⟨name, v⟩, hin, herr⟩ := hmem
      cases v with
      | obj fe =>
          have hsz : sizeOf fe < n := lt_of_lt_of_le (sizeOf_nested_lt hin) hn
          rcases h : List.lookup "type" fe with _ | tv
          · have hb := (ih (sizeOf fe) hsz (joinPath p name) fe le_rfl).2
            simp only [fieldEntryErrors, h] at herr
            exact hb err herr c
          · cases tv with
            | str t =>
                by_cases ht : t ∈ dataTypes
                · have hb := (ih (sizeOf fe) hsz (joinPath p name) fe le_rfl).2
                  simp only [fieldEntryErrors, h, if_pos ht] at herr
                  exact hb err herr c
                · simp only [fieldEntryErrors, h, if_neg ht, List.mem_singleton] at herr
                  simp [herr]
            | _ =>
                simp only [fieldEntryErrors, h, List.mem_singleton] at herr
                simp [herr]
      | str s => simp only [fieldEntryErrors, List.mem_singleton] at herr; simp [herr]
      | num m => simp only [fieldEntryErrors, List.mem_singleton] at herr; simp [herr]
      | bool b => simp only [fieldEntryErrors, List.mem_singleton] at herr; simp [herr]
      | null => simp only [fieldEntryErrors, List.mem_singleton] at herr; simp [herr]
      | undef => simp only [fieldEntryErrors, List.mem_singleton] at herr; simp [herr]
      | arr xs => simp only [fieldEntryErrors, List.mem_singleton] at herr; simp [herr]
    · intro err hmem c
      rw [validateFieldEntries_eq_decomp] at hmem
      simp only [List.mem_flatMap] at hmem
      obtain ⟨⟨key, v⟩, hin, herr⟩ := hmem
      by_cases hty : key = "type"
      · simp [paramEntryErrors, hty] at herr
      · by_cases hpr : key = "properties"
        · subst hpr
          cases v with
          | obj sub =>
              have hsz : sizeOf sub < n := by
                have := sizeOf_nested_lt hin
                omega
              have ha := (ih (sizeOf sub) hsz p sub le_rfl).1
              simp [paramEntryErrors, hty] at herr
              exact ha err herr c
          | str s => simp [paramEntryErrors, hty] at herr
          | num m => simp [paramEntryErrors, hty] at herr
          | bool b => simp [paramEntryErrors, hty] at herr
          | null => simp [paramEntryErrors, hty] at herr
          | undef => simp [paramEntryErrors, hty] at herr
          | arr xs => simp [paramEntryErrors, hty] at herr
        · rcases h : List.lookup key parametersDefinition with _ | pred
          · simp [paramEntryErrors, hty, hpr, h] at herr
            simp [herr]
          · by_cases hv : pred v
            · simp [paramEntryErrors, hty, hpr, h, hv] at herr
            · simp [paramEntryErrors, hty, hpr, h, hv] at herr
              simp [herr]

/-- The properties traversal never emits `ERR_CONFIG`. -/
theorem validateFields_no_config (p : String) (l : List (String × JsonValue)) :
    ∀ err ∈ (validateFields p l).2, ∀ c, err ≠ .config c :=
  (no_config_error_aux (sizeOf l) p l le_rfl).1

/-- Strong-induction core for error paths: every error of the properties
traversal at parent path `p` reports a path of the form `joinPath p u`; and
when the field path `p` is nonempty, every error of the per-field walk
reports either `p` itself or a strictly deeper dotted path `p ++ "." ++ t`. -/
theorem error_path_aux :
    ∀ n (p : String) (l : List (String × JsonValue)), sizeOf l ≤ n →
      (∀ err ∈ (validateFields p l).2, ∃ u, errPath err = joinPath p u) ∧
      (p ≠ "" → ∀ err ∈ (validateFieldEntries p l).2,
        (∃ k, err = .parameter p k) ∨ ∃ t, errPath err = p ++ "." ++ t) := by
  intro n
  induction n using Nat.strong_induction_on with
  | _ n ih =>
    intro p l hn
    constructor
    · intro err hmem
      by_cases hp : p = ""
      · exact ⟨errPath err, by simp [joinPath, hp]⟩
      · rw [validateFields_eq_decomp] at hmem
        simp only [List.mem_flatMap] at hmem
        obtain ⟨⟨name, v⟩, hin, herr⟩ := hmem
        cases v with
        | obj fe =>
            have hsz : sizeOf fe < n := lt_of_lt_of_le (sizeOf_nested_lt hin) hn
            have hfp : joinPath p name ≠ "" := joinPath_ne_empty (Or.inl hp)
            have hb := (ih (sizeOf fe) hsz (joinPath p name) fe le_rfl).2 hfp
            rcases h : List.lookup "type" fe with _ | tv
            · rcases hb err (by simpa [fieldEntryErrors, h] using herr) with ⟨k, heq⟩ | ⟨t, heq⟩
              · exact ⟨name, by simp [heq, errPath]⟩
              · exact ⟨name ++ "." ++ t, by rw [heq, joinPath_extend]⟩
            · cases tv with
              | str t0 =>
                  by_cases ht : t0 ∈ dataTypes
                  · rcases hb err (by simpa [fieldEntryErrors, h, ht] using herr) with
                      ⟨k, heq⟩ | ⟨t, heq⟩
                    · exact ⟨name, by simp [heq, errPath]⟩
                    · exact ⟨name ++ "." ++ t, by rw [heq, joinPath_extend]⟩
                  · simp [fieldEntryErrors, h, ht] at herr
                    exact ⟨name, by simp [herr, errPath]⟩
              | num m => simp [fieldEntryErrors, h] at herr
                         exact ⟨name, by simp [herr, errPath]⟩
              | bool b => simp [fieldEntryErrors, h] at herr
                          exact ⟨name, by simp [herr, errPath]⟩
              | null => simp [fieldEntryErrors, h] at herr
                        exact ⟨name, by simp [herr, errPath]⟩
              | undef => simp [fieldEntryErrors, h] at herr
                         exact ⟨name, by simp [herr, errPath]⟩
              | arr xs => simp [fieldEntryErrors, h] at herr
                          exact ⟨name, by simp [herr, errPath]⟩
              | obj o => simp [fieldEntryErrors, h] at herr
                         exact ⟨name, by simp [herr, errPath]⟩
        | str s => simp [fieldEntryErrors] at herr; exact ⟨name, by simp [herr, errPath]⟩
        | num m => simp [fieldEntryErrors] at herr; exact ⟨name, by simp [herr, errPath]⟩
        | bool b => simp [fieldEntryErrors] at herr; exact ⟨name, by simp [herr, errPath]⟩
        | null => simp [fieldEntryErrors] at herr; exact ⟨name, by simp [herr, errPath]⟩
        | undef => simp [fieldEntryErrors] at herr; exact ⟨name, by simp [herr, errPath]⟩
        | arr xs => simp [fieldEntryErrors] at herr; exact ⟨name, by simp [herr, errPath]⟩
    · intro hp err hmem
      rw [validateFieldEntries_eq_decomp] at hmem
      simp only [List.mem_flatMap] at hmem
      obtain ⟨⟨key, v⟩, hin, herr⟩ := hmem
      by_cases hty : key = "type"
      · simp [paramEntryErrors, hty] at herr
      · by_cases hpr : key = "properties"
        · subst hpr
          cases v with
          | obj sub =>
              have hsz : sizeOf sub < n := by
                have := sizeOf_nested_lt hin
                omega
              have ha := (ih (sizeOf sub) hsz p sub le_rfl).1
              simp [paramEntryErrors, hty] at herr
              obtain ⟨u, hu⟩ := ha err herr
              right
              exact ⟨u, by simpa [joinPath, hp] using hu⟩
          | str s => simp [paramEntryErrors, hty] at herr
          | num m => simp [paramEntryErrors, hty] at herr
          | bool b => simp [paramEntryErrors, hty] at herr
          | null => simp [paramEntryErrors, hty] at herr
          | undef => simp [paramEntryErrors, hty] at herr
          | arr xs => simp [paramEntryErrors, hty] at herr
        · rcases h : List.lookup key parametersDefinition with _ | pred
          · simp [paramEntryErrors, hty, hpr, h] at herr
            left
            exact ⟨key, herr⟩
          · by_cases hv : pred v
            · simp [paramEntryErrors, hty, hpr, h, hv] at herr
            · simp [paramEntryErrors, hty, hpr, h, hv] at herr
              left
              exact ⟨key, herr⟩

/-- Every error of the per-field walk at a nonempty field path is either a
parameter error at that very path or reports a strictly deeper dotted
extension of it. -/
theorem validateFieldEntries_error_path {p : String} (hp : p ≠ "")
    (l : List (String × JsonValue)) :
    ∀ err ∈ (validateFieldEntries p l).2,
      (∃ k, err = .parameter p k) ∨ ∃ t, errPath err = p ++ "." ++ t :=
  (error_path_aux (sizeOf l) p l le_rfl).2 hp

/-- Every error of the properties traversal reports a dotted path below the
parent path. -/
theorem validateFields_error_path (p : String) (l : List (String × JsonValue)) :
    ∀ err ∈ (validateFields p l).2, ∃ u, errPath err = joinPath p u :=
  (error_path_aux (sizeOf l) p l le_rfl).1

/-- Extending a path by a dot and a segment changes it. -/
theorem append_dot_ne (p t : String) : p ++ "." ++ t ≠ p := by
  intro h
  have hlen := congrArg String.length h
  rw [String.length_append, String.length_append] at hlen
  have h1 : String.length "." = 1 := rfl
  omega

/-- A dotted concatenation contains a dot. -/
theorem dot_mem_of_eq_append_dot {s m t : String} (h : s = m ++ "." ++ t) :
    ('.' : Char) ∈ s.data := by
  have hd := congrArg String.data h
  rw [String.data_append, String.data_append] at hd
  have h1 : ("." : String).data = ['.'] := rfl
  rw [h1] at hd
  simp [hd]

/-- In a list with nodup keys, two entries with the same key are the same
entry. -/
theorem eq_of_mem_of_nodup_keys {β : Type} {l : List (String × β)}
    (hnd : (l.map Prod.fst).Nodup) {a b : String × β}
    (ha : a ∈ l) (hb : b ∈ l) (h : a.1 = b.1) : a = b := by
  induction l with
  | nil => cases ha
  | cons e rest ih =>
      rw [List.map_cons, List.nodup_cons] at hnd
      rcases List.mem_cons.mp ha with ha1 | ha1 <;>
        rcases List.mem_cons.mp hb with hb1 | hb1
      · rw [ha1, hb1]
      · exfalso
        have hmem : b.1 ∈ List.map Prod.fst rest := List.mem_map_of_mem Prod.fst hb1
        rw [← h, ha1] at hmem
        exact hnd.1 hmem
      · exfalso
        have hmem : a.1 ∈ List.map Prod.fst rest := List.mem_map_of_mem Prod.fst ha1
        rw [h, hb1] at hmem
        exact hnd.1 hmem
      · exact ih hnd.2 ha1 hb1

/-- The per-entry survivor of the properties traversal keeps the entry's
key. -/
theorem fieldEntryValue_key {p : String} {e r : String × JsonValue}
    (h : fieldEntryValue p e = some r) : r.1 = e.1 := by
  obtain ⟨name, v⟩ := e
  cases v with
  | obj fe =>
      simp only [fieldEntryValue] at h
      rcases ht : List.lookup "type" fe with _ | tv <;> rw [ht] at h
      · simp only [Option.some.injEq] at h
        rw [← h]
      · cases tv
        case str t =>
          by_cases hd : t ∈ dataTypes
          · simp only [hd, if_true, Option.some.injEq] at h
            rw [← h]
          · simp [hd] at h
        all_goals simp at h
  | str s => simp [fieldEntryValue] at h
  | num m => simp [fieldEntryValue] at h
  | bool b => simp [fieldEntryValue] at h
  | null => simp [fieldEntryValue] at h
  | undef => simp [fieldEntryValue] at h
  | arr xs => simp [fieldEntryValue] at h

/-- A dropped properties entry contributes exactly the one `ERR_FIELD` at
its dotted path. -/
theorem fieldEntryErrors_of_dropped {p : String} {e : String × JsonValue}
    (h : fieldEntryValue p e = none) :
    fieldEntryErrors p e = [.field (joinPath p e.1)] := by
  obtain ⟨name, v⟩ := e
  cases v with
  | obj fe =>
      simp only [fieldEntryValue] at h
      simp only [fieldEntryErrors]
      rcases ht : List.lookup "type" fe with _ | tv <;> rw [ht] at h
      · simp at h
      · cases tv
        case str t =>
          by_cases hd : t ∈ dataTypes
          · simp [hd] at h
          · simp [hd]
        all_goals simp
  | str s => simp [fieldEntryErrors]
  | num m => simp [fieldEntryErrors]
  | bool b => simp [fieldEntryErrors]
  | null => simp [fieldEntryErrors]
  | undef => simp [fieldEntryErrors]
  | arr xs => simp [fieldEntryErrors]

/-- A surviving properties entry is a plain object whose contributed errors
are those of the per-field walk at the entry's dotted path. -/
theorem fieldEntryErrors_of_kept {p : String} {name : String} {v : JsonValue}
    {r : String × JsonValue} (h : fieldEntryValue p (name, v) = some r) :
    ∃ fe, v = .obj fe ∧
      fieldEntryErrors p (name, v) = (validateFieldEntries (joinPath p name) fe).2 := by
  cases v with
  | obj fe =>
      refine ⟨fe, rfl, ?_⟩
      simp only [fieldEntryValue] at h
      simp only [fieldEntryErrors]
      rcases ht : List.lookup "type" fe with _ | tv <;> rw [ht] at h
      cases tv
      case str t =>
        by_cases hd : t ∈ dataTypes
        · simp [hd]
        · simp [hd] at h
      all_goals simp at h
  | str s => simp [fieldEntryValue] at h
  | num m => simp [fieldEntryValue] at h
  | bool b => simp [fieldEntryValue] at h
  | null => simp [fieldEntryValue] at h
  | undef => simp [fieldEntryValue] at h
  | arr xs => simp [fieldEntryValue] at h

/-- Errors contributed by an entry with a different, nonempty key never
report the dotted path of a dot-free, distinct name. -/
theorem errPath_ne_of_other_entry {p m name : String} {w : JsonValue}
    (hm : m ≠ "") (hne : m ≠ name) (hdot : ('.' : Char) ∉ name.data) :
    ∀ err ∈ fieldEntryErrors p (m, w), errPath err ≠ joinPath p name := by
  intro err herr hcon
  rcases hk : fieldEntryValue p (m, w) with _ | r
  · rw [fieldEntryErrors_of_dropped hk] at herr
    simp at herr
    rw [herr] at hcon
    exact hne (joinPath_inj hcon)
  · obtain ⟨fe, rfl, heq⟩ := fieldEntryErrors_of_kept hk
    rw [heq] at herr
    have hfp : joinPath p m ≠ "" := joinPath_ne_empty (Or.inr hm)
    rcases validateFieldEntries_error_path hfp fe err herr with ⟨k, rfl⟩ | ⟨t, hpath⟩
    · exact hne (joinPath_inj (by simpa [errPath] using hcon))
    · rw [hcon, joinPath_extend] at hpath
      exact hdot (dot_mem_of_eq_append_dot (joinPath_inj hpath))

/-- A properties list is key-hygienic when its keys are nonempty, dot-free
and mutually distinct (always the case for a JavaScript object literal with
ordinary field names). -/
def KeyHygienic (l : List (String × JsonValue)) : Prop :=
  (l.map Prod.fst).Nodup ∧ ∀ e ∈ l, e.1 ≠ "" ∧ ('.' : Char) ∉ e.1.data

/-- Dropping a properties entry, under key hygiene: the key is absent from
the cleaned mapping, exactly one `ERR_FIELD` with the entry's dotted path is
emitted, and every error reporting that exact path is that `ERR_FIELD`
(never an `ERR_PARAMETER`). -/
theorem dropped_entry_spec {p : String} {l : List (String × JsonValue)}
    (hh : KeyHygienic l) {name : String} {v : JsonValue}
    (hin : (name, v) ∈ l) (hdrop : fieldEntryValue p (name, v) = none) :
    List.count (.field (joinPath p name)) (validateFields p l).2 = 1 ∧
    (∀ w, (name, w) ∉ (validateFields p l).1) ∧
    (∀ err ∈ (validateFields p l).2, errPath err = joinPath p name →
      err = .field (joinPath p name)) := by
  obtain ⟨hnd, hgood⟩ := hh
  have hother : ∀ e ∈ l, e ≠ (name, v) →
      ∀ err ∈ fieldEntryErrors p e, errPath err ≠ joinPath p name := by
    intro e he hne err herr
    obtain ⟨m, w⟩ := e
    have hm : m ≠ name := by
      intro hcon
      exact hne (eq_of_mem_of_nodup_keys hnd he hin hcon)
    exact errPath_ne_of_other_entry (hgood _ he).1 hm (hgood _ hin).2 err herr
  refine ⟨?_, ?_, ?_⟩
  · obtain ⟨l1, l2, rfl⟩ := List.append_of_mem hin
    have hnotmem : ∀ l0 : List (String × JsonValue),
        (∀ e ∈ l0, e ∈ l1 ++ (name, v) :: l2 ∧ e ≠ (name, v)) →
        ValidationError.field (joinPath p name) ∉ l0.flatMap (fieldEntryErrors p) := by
      intro l0 hl0 hmem
      obtain ⟨e, he, herr⟩ := List.mem_flatMap.mp hmem
      exact hother e (hl0 e he).1 (hl0 e he).2 _ herr rfl
    have hnd1 : name ∉ l1.map Prod.fst ∧ name ∉ l2.map Prod.fst := by
      rw [List.map_append, List.map_cons] at hnd
      obtain ⟨h1, h2, hdisj⟩ := List.nodup_append.mp hnd
      exact ⟨fun hmem => hdisj hmem (List.mem_cons_self _ _),
        (List.nodup_cons.mp h2).1⟩
    have hne1 : ∀ e ∈ l1, e ∈ l1 ++ (name, v) :: l2 ∧ e ≠ (name, v) := by
      intro e he
      refine ⟨List.mem_append_left _ he, fun hcon => ?_⟩
      exact hnd1.1 (by simpa [hcon] using List.mem_map_of_mem Prod.fst he)
    have hne2 : ∀ e ∈ l2, e ∈ l1 ++ (name, v) :: l2 ∧ e ≠ (name, v) := by
      intro e he
      refine ⟨List.mem_append_right _ (List.mem_cons_of_mem _ he), fun hcon => ?_⟩
      exact hnd1.2 (by simpa [hcon] using List.mem_map_of_mem Prod.fst he)
    rw [validateFields_eq_decomp]
    simp only [List.flatMap_append, List.flatMap_cons]
    rw [List.count_append, List.count_append,
      List.count_eq_zero.mpr (hnotmem l1 hne1),
      List.count_eq_zero.mpr (hnotmem l2 hne2),
      fieldEntryErrors_of_dropped hdrop]
    simp
  · intro w hmem
    rw [validateFields_eq_decomp] at hmem
    obtain ⟨e, he, hev⟩ := List.mem_filterMap.mp hmem
    have hkey : e.1 = name := (fieldEntryValue_key hev).symm ▸ rfl
    have : e = (name, v) := eq_of_mem_of_nodup_keys hnd he hin hkey
    rw [this] at hev
    rw [hev] at hdrop
    cases hdrop
  · intro err hmem hpath
    rw [validateFields_eq_decomp] at hmem
    obtain ⟨e, he, herr⟩ := List.mem_flatMap.mp hmem
    by_cases heq : e = (name, v)
    · rw [heq, fieldEntryErrors_of_dropped hdrop] at herr
      simpa using herr
    · exact absurd hpath (hother e he heq err herr)

/-- Keeping a properties entry, under key hygiene: the cleaned node is in
the returned mapping and no `ERR_FIELD` with the entry's dotted path is
emitted. -/
theorem kept_entry_spec {p : String} {l : List (String × JsonValue)}
    (hh : KeyHygienic l) {name : String} {v : JsonValue} {r : String × JsonValue}
    (hin : (name, v) ∈ l) (hkeep : fieldEntryValue p (name, v) = some r) :
    r ∈ (validateFields p l).1 ∧
      ValidationError.field (joinPath p name) ∉ (validateFields p l).2 := by
  obtain ⟨hnd, hgood⟩ := hh
  constructor
  · rw [validateFields_eq_decomp]
    exact List.mem_filterMap.mpr ⟨(name, v), hin, hkeep⟩
  · rw [validateFields_eq_decomp]
    intro hmem
    obtain ⟨e, he, herr⟩ := List.mem_flatMap.mp hmem
    by_cases heq : e = (name, v)
    · subst heq
      obtain ⟨fe, hv, herrs⟩ := fieldEntryErrors_of_kept hkeep
      rw [herrs] at herr
      have hfp : joinPath p name ≠ "" := joinPath_ne_empty (Or.inr (hgood _ hin).1)
      rcases validateFieldEntries_error_path hfp fe _ herr with ⟨k, habs⟩ | ⟨t, habs⟩
      · cases habs
      · have habs2 : joinPath p name = joinPath p name ++ "." ++ t := by
          simpa [errPath] using habs
        exact append_dot_ne _ t habs2.symm
    · obtain ⟨m, w⟩ := e
      have hm : m ≠ name := fun hcon =>
        heq (eq_of_mem_of_nodup_keys hnd he hin hcon)
      exact errPath_ne_of_other_entry (hgood _ he).1 hm (hgood _ hin).2 _ herr rfl

/-- The per-entry survivor of the field walk keeps the entry's key. -/
theorem paramEntryValue_key {fp : String} {e r : String × JsonValue}
    (h : paramEntryValue fp e = some r) : r.1 = e.1 := by
  obtain ⟨key, v⟩ := e
  by_cases hty : key = "type"
  · subst hty
    simp [paramEntryValue] at h
    subst h
    rfl
  · by_cases hpr : key = "properties"
    · subst hpr
      cases v <;> simp [paramEntryValue, hty] at h <;> subst h <;> rfl
    · rcases hl : List.lookup key parametersDefinition with _ | pred
      · simp [paramEntryValue, hty, hpr, hl] at h
      · by_cases hv : pred v
        · simp [paramEntryValue, hty, hpr, hl, hv] at h
          subst h
          rfl
        · simp [paramEntryValue, hty, hpr, hl, hv] at h

/-- A stripped field-entry contributes exactly the one `ERR_PARAMETER` with
the field path and the entry's key. -/
theorem paramEntryErrors_of_dropped {fp : String} {e : String × JsonValue}
    (h : paramEntryValue fp e = none) :
    paramEntryErrors fp e = [.parameter fp e.1] := by
  obtain ⟨key, v⟩ := e
  by_cases hty : key = "type"
  · simp [paramEntryValue, hty] at h
  · by_cases hpr : key = "properties"
    · subst hpr
      cases v <;> simp [paramEntryValue, hty] at h
    · rcases hl : List.lookup key parametersDefinition with _ | pred
      · simp [paramEntryErrors, hty, hpr, hl]
      · by_cases hv : pred v
        · simp [paramEntryValue, hty, hpr, hl, hv] at h
        · simp [paramEntryErrors, hty, hpr, hl, hv]

/-- A parameter error at the field path itself names the entry that caused
it. -/
theorem param_err_mem_key {fp : String} (hfp : fp ≠ "") {e : String × JsonValue}
    {k : String} (h : ValidationError.parameter fp k ∈ paramEntryErrors fp e) :
    e.1 = k := by
  obtain ⟨key, v⟩ := e
  by_cases hty : key = "type"
  · simp [paramEntryErrors, hty] at h
  · by_cases hpr : key = "properties"
    · subst hpr
      cases v with
      | obj sub =>
          simp [paramEntryErrors, hty] at h
          obtain ⟨u, hu⟩ := validateFields_error_path fp sub _ h
          have hu2 : fp = fp ++ "." ++ u := by simpa [errPath, joinPath, hfp] using hu
          exact absurd hu2.symm (append_dot_ne fp u)
      | str s => simp [paramEntryErrors, hty] at h
      | num m => simp [paramEntryErrors, hty] at h
      | bool b => simp [paramEntryErrors, hty] at h
      | null => simp [paramEntryErrors, hty] at h
      | undef => simp [paramEntryErrors, hty] at h
      | arr xs => simp [paramEntryErrors, hty] at h
    · rcases hl : List.lookup key parametersDefinition with _ | pred
      · simp [paramEntryErrors, hty, hpr, hl] at h
        exact h.symm
      · by_cases hv : pred v
        · simp [paramEntryErrors, hty, hpr, hl, hv] at h
        · simp [paramEntryErrors, hty, hpr, hl, hv] at h
          exact h.symm

/-- A kept field-entry never contributes a parameter error carrying its own
key at the field path. -/
theorem no_param_err_of_kept {fp : String} (hfp : fp ≠ "") {e : String × JsonValue}
    {r : String × JsonValue} (hkeep : paramEntryValue fp e = some r) :
    ValidationError.parameter fp e.1 ∉ paramEntryErrors fp e := by
  obtain ⟨key, v⟩ := e
  by_cases hty : key = "type"
  · simp [paramEntryErrors, hty]
  · by_cases hpr : key = "properties"
    · subst hpr
      cases v with
      | obj sub =>
          intro h
          simp [paramEntryErrors, hty] at h
          obtain ⟨u, hu⟩ := validateFields_error_path fp sub _ h
          have hu2 : fp = fp ++ "." ++ u := by simpa [errPath, joinPath, hfp] using hu
          exact absurd hu2.symm (append_dot_ne fp u)
      | str s => simp [paramEntryErrors, hty]
      | num m => simp [paramEntryErrors, hty]
      | bool b => simp [paramEntryErrors, hty]
      | null => simp [paramEntryErrors, hty]
      | undef => simp [paramEntryErrors, hty]
      | arr xs => simp [paramEntryErrors, hty]
    · rcases hl : List.lookup key parametersDefinition with _ | pred
      · simp [paramEntryValue, hty, hpr, hl] at hkeep
      · by_cases hv : pred v
        · simp [paramEntryErrors, hty, hpr, hl, hv]
        · simp [paramEntryValue, hty, hpr, hl, hv] at hkeep

/-- Stripping a parameter from a field, under nodup keys and a nonempty
field path: the key is absent from the cleaned node and exactly one
`ERR_PARAMETER` carrying the field path and the key is emitted. -/
theorem stripped_param_spec {fp : String} (hfp : fp ≠ "")
    {l : List (String × JsonValue)} (hnd : (l.map Prod.fst).Nodup)
    {key : String} {v : JsonValue}
    (hin : (key, v) ∈ l) (hdrop : paramEntryValue fp (key, v) = none) :
    List.count (.parameter fp key) (validateFieldEntries fp l).2 = 1 ∧
    (∀ w, (key, w) ∉ (validateFieldEntries fp l).1) := by
  constructor
  · obtain ⟨l1, l2, rfl⟩ := List.append_of_mem hin
    have hnd1 : key ∉ l1.map Prod.fst ∧ key ∉ l2.map Prod.fst := by
      rw [List.map_append, List.map_cons] at hnd
      obtain ⟨h1, h2, hdisj⟩ := List.nodup_append.mp hnd
      exact ⟨fun hmem => hdisj hmem (List.mem_cons_self _ _),
        (List.nodup_cons.mp h2).1⟩
    have hside : ∀ l0 : List (String × JsonValue), key ∉ l0.map Prod.fst →
        ValidationError.parameter fp key ∉ l0.flatMap (paramEntryErrors fp) := by
      intro l0 hk hmem
      obtain ⟨e, he, herr⟩ := List.mem_flatMap.mp hmem
      have hkey := param_err_mem_key hfp herr
      apply hk
      rw [← hkey]
      exact List.mem_map_of_mem Prod.fst he
    rw [validateFieldEntries_eq_decomp]
    simp only [List.flatMap_append, List.flatMap_cons]
    rw [List.count_append, List.count_append,
      List.count_eq_zero.mpr (hside l1 hnd1.1),
      List.count_eq_zero.mpr (hside l2 hnd1.2),
      paramEntryErrors_of_dropped hdrop]
    simp
  · intro w hmem
    rw [validateFieldEntries_eq_decomp] at hmem
    obtain ⟨e, he, hev⟩ := List.mem_filterMap.mp hmem
    have hkey : e.1 = key := by simpa using (paramEntryValue_key hev).symm
    have heq : e = (key, v) := eq_of_mem_of_nodup_keys hnd he hin hkey
    rw [heq, hdrop] at hev
    cases hev

/-- Keeping a field-entry, under nodup keys and a nonempty field path: the
kept entry is in the cleaned node and no `ERR_PARAMETER` carrying its key at
the field path is emitted. -/
theorem kept_param_spec {fp : String} (hfp : fp ≠ "")
    {l : List (String × JsonValue)} (hnd : (l.map Prod.fst).Nodup)
    {key : String} {v : JsonValue} {r : String × JsonValue}
    (hin : (key, v) ∈ l) (hkeep : paramEntryValue fp (key, v) = some r) :
    r ∈ (validateFieldEntries fp l).1 ∧
      ValidationError.parameter fp key ∉ (validateFieldEntries fp l).2 := by
  constructor
  · rw [validateFieldEntries_eq_decomp]
    exact List.mem_filterMap.mpr ⟨(key, v), hin, hkeep⟩
  · rw [validateFieldEntries_eq_decomp]
    intro hmem
    obtain ⟨e, he, herr⟩ := List.mem_flatMap.mp hmem
    have hkey : e.1 = key := param_err_mem_key hfp herr
    have heq : e = (key, v) := eq_of_mem_of_nodup_keys hnd he hin hkey
    rw [heq] at herr
    exact no_param_err_of_kept hfp hkeep herr

/-- The field list of an object value (empty for non-objects). -/
def objFields : JsonValue → List (String × JsonValue)
  | .obj l => l
  | _ => []

/-- **C2.** For every non-plain-object input (a string, a number, an array,
`null`, `undefined` — and also a boolean), `validateMappings` returns an
empty plain-object value with `errors` equal to `undefined` (modelled as
`none`), whereas `validateProperties` returns an empty mapping with `errors`
equal to the empty array: the former signals "no errors" with `undefined`,
the latter always returns an array. -/
theorem validators_non_object_input (v : JsonValue) (pid : List String)
    (h : isPlainObject v = false) :
    validateMappings v pid = ⟨.obj [], none⟩ ∧ validateProperties v = ⟨[], []⟩ := by
  cases v <;> simp_all [isPlainObject, validateMappings, validateProperties]

/-- Witness for C2 at the test's concrete inputs `"abc"` and `123`. -/
theorem validators_non_object_input_witness :
    isPlainObject (.str "abc") = false ∧
      validateMappings (.str "abc") [] = ⟨.obj [], none⟩ ∧
      validateProperties (.num 123) = ⟨[], []⟩ :=
  ⟨rfl, (validators_non_object_input (.str "abc") [] rfl).1,
    (validators_non_object_input (.num 123) [] rfl).2⟩

/-- A non-plain-object properties entry is always dropped by the per-entry
cleaner. -/
theorem fieldEntryValue_none_of_not_object {p name : String} {v : JsonValue}
    (h : isPlainObject v = false) : fieldEntryValue p (name, v) = none := by
  cases v <;> simp_all [isPlainObject, fieldEntryValue]

/-- An entry whose `type` is present but not a recognized type-name string is
always dropped by the per-entry cleaner. -/
theorem fieldEntryValue_none_of_bad_type {p name : String}
    {fe : List (String × JsonValue)} {tv : JsonValue}
    (h : List.lookup "type" fe = some tv)
    (hbad : ∀ t, tv = .str t → t ∉ dataTypes) :
    fieldEntryValue p (name, .obj fe) = none := by
  simp only [fieldEntryValue]
  rw [h]
  cases tv with
  | str t => simp [hbad t rfl]
  | num m => rfl
  | bool b => rfl
  | null => rfl
  | undef => rfl
  | arr xs => rfl
  | obj o => rfl

/-- The input of the test `should strip non object fields`: one valid
sibling, four non-object entries, and a nested object field containing one
more invalid sub-entry. -/
def stripNonObjectInput : List (String × JsonValue) :=
  [("prop1", .obj [("type", .str "text")]),
   ("prop2", .str "abc"),
   ("prop3", .num 123),
   ("prop4", .null),
   ("prop5", .arr []),
   ("prop6", .obj [("properties",
      .obj [("prop1", .obj [("type", .str "text")]), ("prop2", .str "abc")])])]

/-- **C3.** A properties entry whose value is not a plain object, or whose
`type` is present but not a recognized type-name string (a number or an
unrecognized name), is dropped wholesale from the returned mapping and
reported with exactly one `ERR_FIELD` (never an `ERR_PARAMETER`) whose
`fieldPath` is the dot-separated path from the root; valid sibling entries
and valid nested sub-entries are retained.  The general clauses hold at any
parent path under key hygiene; the final clause replays the test fixture,
where the nested invalid entry is reported as `prop6.prop2` and the valid
entries (including the nested valid sub-entry) survive. -/
theorem validateProperties_drops_invalid_entries :
    (∀ (p : String) (l : List (String × JsonValue)), KeyHygienic l →
      ∀ name v, (name, v) ∈ l →
        (isPlainObject v = false ∨
          ∃ fe tv, v = .obj fe ∧ List.lookup "type" fe = some tv ∧
            (∀ t, tv = .str t → t ∉ dataTypes)) →
        List.count (.field (joinPath p name)) (validateFields p l).2 = 1 ∧
        (∀ w, (name, w) ∉ (validateFields p l).1) ∧
        (∀ k, ValidationError.parameter (joinPath p name) k ∉ (validateFields p l).2)) ∧
    validateProperties (.obj stripNonObjectInput) =
      ⟨[("prop1", .obj [("type", .str "text")]),
        ("prop6", .obj [("type", .str "object"),
          ("properties", .obj [("prop1", .obj [("type", .str "text")])])])],
       [.field "prop2", .field "prop3", .field "prop4", .field "prop5",
        .field "prop6.prop2"]⟩ := by
  constructor
  · intro p l hh name v hin hbad
    have hdrop : fieldEntryValue p (name, v) = none := by
      rcases hbad with h | ⟨fe, tv, rfl, hl, hbad⟩
      · exact fieldEntryValue_none_of_not_object h
      · exact fieldEntryValue_none_of_bad_type hl hbad
    obtain ⟨hcount, hvalue, hpathspec⟩ := dropped_entry_spec hh hin hdrop
    refine ⟨hcount, hvalue, fun k hmem => ?_⟩
    have := hpathspec _ hmem rfl
    cases this
  · set_option maxRecDepth 4000 in
    simp [validateProperties, validateFields, validateFieldEntries,
      stripNonObjectInput, dataTypes, joinPath, parametersDefinition, List.lookup]

/-- Witness for C3's general clauses at the fixture's `prop2` (a string
entry at the root) of the test input. -/
theorem validateProperties_drops_invalid_entries_witness :
    KeyHygienic stripNonObjectInput ∧
      ("prop2", JsonValue.str "abc") ∈ stripNonObjectInput ∧
      List.count (.field (joinPath "" "prop2"))
        (validateFields "" stripNonObjectInput).2 = 1 := by
  refine ⟨?_, ?_, ?_⟩
  · constructor
    · decide
    · decide
  · simp [stripNonObjectInput]
  · exact (validateProperties_drops_invalid_entries.1 "" stripNonObjectInput
      ⟨by decide, by decide⟩ "prop2" (.str "abc") (by simp [stripNonObjectInput])
      (Or.inl rfl)).1

/-- The input of the test `should set the type to "object" when type is not
provided`: `type` omitted at the root and at depth one, beside fields with
explicit types. -/
def typeDefaultInput : List (String × JsonValue) :=
  [("prop1", .obj [("type", .str "text")]),
   ("prop2", .obj []),
   ("prop3", .obj [("type", .str "object"),
     ("properties", .obj [("prop1", .obj []),
       ("prop2", .obj [("type", .str "keyword")])])])]

/-- **C4.** A field definition with `type` omitted gets `type: "object"` in
the returned node, at every depth (the general clause holds for any parent
path, so in particular for every level of the recursion), and the defaulting
itself produces no error: the field is kept and no `ERR_FIELD` for it is
emitted.  The final clause replays the test fixture, where the defaulting
happens at the root (`prop2`) and inside a nested `properties` tree
(`prop3.prop1`), with an empty error list. -/
theorem validateProperties_type_defaults_to_object :
    (∀ (p : String) (l : List (String × JsonValue)), KeyHygienic l →
      ∀ name fe, (name, .obj fe) ∈ l → List.lookup "type" fe = none →
        (name, .obj (("type", .str "object") ::
          (validateFieldEntries (joinPath p name) fe).1)) ∈ (validateFields p l).1 ∧
        ValidationError.field (joinPath p name) ∉ (validateFields p l).2) ∧
    validateProperties (.obj typeDefaultInput) =
      ⟨[("prop1", .obj [("type", .str "text")]),
        ("prop2", .obj [("type", .str "object")]),
        ("prop3", .obj [("type", .str "object"),
          ("properties", .obj [("prop1", .obj [("type", .str "object")]),
            ("prop2", .obj [("type", .str "keyword")])])])],
       []⟩ := by
  constructor
  · intro p l hh name fe hin hty
    have hkeep : fieldEntryValue p (name, .obj fe) =
        some (name, .obj (("type", .str "object") ::
          (validateFieldEntries (joinPath p name) fe).1)) := by
      simp only [fieldEntryValue]
      rw [hty]
    exact kept_entry_spec hh hin hkeep
  · set_option maxRecDepth 4000 in
    simp [validateProperties, validateFields, validateFieldEntries,
      typeDefaultInput, dataTypes, joinPath, parametersDefinition, List.lookup]

/-- Witness for C4's general clause at the fixture's `prop2` (an empty
object, so `type` is absent). -/
theorem validateProperties_type_defaults_to_object_witness :
    KeyHygienic typeDefaultInput ∧
      ("prop2", JsonValue.obj []) ∈ typeDefaultInput ∧
      ("prop2", JsonValue.obj [("type", .str "object")]) ∈
        (validateFields "" typeDefaultInput).1 := by
  refine ⟨⟨by decide, by decide⟩, by simp [typeDefaultInput], ?_⟩
  have h := (validateProperties_type_defaults_to_object.1 "" typeDefaultInput
    ⟨by decide, by decide⟩ "prop2" [] (by simp [typeDefaultInput]) rfl).1
  simpa [validateFieldEntries] using h

/-- The `wrongField` fixture of the test `should strip parameters whose
value don't have the valid type`: every parameter bears a wrongly-shaped
value (the numeric literals of the original fixture are rendered as
integers; only the value's kind matters to the predicates). -/
def wrongFieldEntries : List (String × JsonValue) :=
  [("type", .str "text"),
   ("store", .str "abc"),
   ("index", .str "abc"),
   ("doc_values", .obj [("a", .num 123)]),
   ("doc_values_binary", .null),
   ("fielddata", .arr [.str ""]),
   ("fielddata_frequency_filter", .arr [.num 123, .num 456]),
   ("coerce", .num 1234),
   ("coerce_shape", .str ""),
   ("ignore_malformed", .num 0),
   ("null_value_numeric", .str "abc"),
   ("null_value_boolean", .arr []),
   ("copy_to", .arr [.num 1]),
   ("max_input_length", .bool true),
   ("locale", .num 1),
   ("orientation", .arr []),
   ("boost", .obj [("a", .num 123)]),
   ("scaling_factor", .str "some_string"),
   ("dynamic", .arr [.bool true]),
   ("enabled", .str "false"),
   ("format", .null),
   ("analyzer", .num 1),
   ("search_analyzer", .null),
   ("search_quote_analyzer", .obj []),
   ("normalizer", .arr []),
   ("index_options", .num 1),
   ("index_options_keyword", .bool true),
   ("index_options_flattened", .arr []),
   ("eager_global_ordinals", .num 123),
   ("index_phrases", .null),
   ("preserve_separators", .str "abc"),
   ("preserve_position_increments", .arr []),
   ("ignore_z_value", .obj []),
   ("points_only", .arr [.bool true]),
   ("norms", .str "false"),
   ("norms_keyword", .str "abc"),
   ("term_vector", .arr [.str "no"]),
   ("path", .arr [.null]),
   ("position_increment_gap", .str "abc"),
   ("index_prefixes", .obj [("min_chars", .arr []), ("max_chars", .str "abc")]),
   ("similarity", .num 1),
   ("split_queries_on_whitespace", .obj []),
   ("ignore_above", .str "abc"),
   ("enable_position_increments", .arr []),
   ("depth_limit", .bool true),
   ("dims", .bool false),
   ("max_shingle_size", .str "string_not_allowed")]

/-- The `goodField` fixture of the same test: every parameter bears a
correctly-shaped value. -/
def goodFieldEntries : List (String × JsonValue) :=
  [("type", .str "text"),
   ("store", .bool true),
   ("index", .bool true),
   ("doc_values", .bool true),
   ("doc_values_binary", .bool true),
   ("fielddata", .bool true),
   ("fielddata_frequency_filter",
     .obj [("min", .num 1), ("max", .num 2), ("min_segment_size", .num 10)]),
   ("coerce", .bool true),
   ("coerce_shape", .bool true),
   ("ignore_malformed", .bool true),
   ("null_value", .str "NULL"),
   ("null_value_numeric", .num 1),
   ("null_value_boolean", .str "true"),
   ("copy_to", .str "abc"),
   ("max_input_length", .num 10),
   ("locale", .str "en"),
   ("orientation", .str "ccw"),
   ("boost", .num 2),
   ("scaling_factor", .num 3),
   ("dynamic", .str "strict"),
   ("enabled", .bool true),
   ("format", .str "strict_date_optional_time"),
   ("analyzer", .str "standard"),
   ("search_analyzer", .str "standard"),
   ("search_quote_analyzer", .str "standard"),
   ("normalizer", .str "standard"),
   ("index_options", .str "positions"),
   ("index_options_keyword", .str "docs"),
   ("index_options_flattened", .str "docs"),
   ("eager_global_ordinals", .bool true),
   ("index_phrases", .bool true),
   ("preserve_separators", .bool true),
   ("preserve_position_increments", .bool true),
   ("ignore_z_value", .bool true),
   ("points_only", .bool true),
   ("norms", .bool true),
   ("norms_keyword", .bool true),
   ("term_vector", .str "no"),
   ("path", .str "abc"),
   ("position_increment_gap", .num 100),
   ("index_prefixes", .obj [("min_chars", .num 2), ("max_chars", .num 5)]),
   ("similarity", .str "BM25"),
   ("split_queries_on_whitespace", .bool true),
   ("ignore_above", .num 64),
   ("enable_position_increments", .bool true),
   ("depth_limit", .num 20),
   ("dims", .str "abc"),
   ("max_shingle_size", .num 2)]

/-- The whole input of that test: the all-wrong field, the all-good field,
and five object fields exercising every allowed `dynamic` value. -/
def paramStripInput : List (String × JsonValue) :=
  [("wrongField", .obj wrongFieldEntries),
   ("goodField", .obj goodFieldEntries),
   ("goodField2", .obj [("type", .str "object"), ("dynamic", .bool true)]),
   ("goodField3", .obj [("type", .str "object"), ("dynamic", .bool false)]),
   ("goodField4", .obj [("type", .str "object"), ("dynamic", .str "true")]),
   ("goodField5", .obj [("type", .str "object"), ("dynamic", .str "false")]),
   ("goodField6", .obj [("type", .str "object"), ("dynamic", .str "runtime")])]

set_option maxRecDepth 16000 in
set_option maxHeartbeats 8000000 in
/-- **C5.** For a field whose type is a recognized string, each parameter
(other than `type` and `properties`) that is unknown or whose value fails
the parameter's shape predicate is stripped from the node and yields exactly
one `ERR_PARAMETER` carrying the field path and the parameter name, while a
parameter passing its predicate is preserved unchanged and yields no error
(general clauses, under nodup keys and a nonempty field path).  The final
clause replays the test fixture: the all-wrong field is reduced to
`{ type }` with one error per parameter in declaration order, and the
all-good field and the five `dynamic`-bearing object fields survive
byte-for-byte. -/
theorem validateProperties_parameter_stripping :
    (∀ (fp : String), fp ≠ "" → ∀ (l : List (String × JsonValue)),
      (l.map Prod.fst).Nodup → ∀ key v, (key, v) ∈ l →
        key ≠ "type" → key ≠ "properties" →
        (List.lookup key parametersDefinition = none ∨
          ∃ pred, List.lookup key parametersDefinition = some pred ∧ pred v = false) →
        List.count (.parameter fp key) (validateFieldEntries fp l).2 = 1 ∧
        ∀ w, (key, w) ∉ (validateFieldEntries fp l).1) ∧
    (∀ (fp : String), fp ≠ "" → ∀ (l : List (String × JsonValue)),
      (l.map Prod.fst).Nodup → ∀ key v pred, (key, v) ∈ l →
        key ≠ "type" → key ≠ "properties" →
        List.lookup key parametersDefinition = some pred → pred v = true →
        (key, v) ∈ (validateFieldEntries fp l).1 ∧
        ValidationError.parameter fp key ∉ (validateFieldEntries fp l).2) ∧
    validateProperties (.obj paramStripInput) =
      ⟨[("wrongField", .obj [("type", .str "text")]),
        ("goodField", .obj goodFieldEntries),
        ("goodField2", .obj [("type", .str "object"), ("dynamic", .bool true)]),
        ("goodField3", .obj [("type", .str "object"), ("dynamic", .bool false)]),
        ("goodField4", .obj [("type", .str "object"), ("dynamic", .str "true")]),
        ("goodField5", .obj [("type", .str "object"), ("dynamic", .str "false")]),
        ("goodField6", .obj [("type", .str "object"), ("dynamic", .str "runtime")])],
       (wrongFieldEntries.filter fun e => e.1 != "type").map
         fun e => .parameter "wrongField" e.1⟩ := by
  refine ⟨?_, ?_, ?_⟩
  · intro fp hfp l hnd key v hin hty hpr hbad
    have hdrop : paramEntryValue fp (key, v) = none := by
      rcases hbad with h | ⟨pred, h, hv⟩
      · simp [paramEntryValue, hty, hpr, h]
      · simp [paramEntryValue, hty, hpr, h, hv]
    exact stripped_param_spec hfp hnd hin hdrop
  · intro fp hfp l hnd key v pred hin hty hpr hl hv
    have hkeep : paramEntryValue fp (key, v) = some (key, v) := by
      simp [paramEntryValue, hty, hpr, hl, hv]
    exact kept_param_spec hfp hnd hin hkeep
  · simp [validateProperties, validateFields, validateFieldEntries,
      paramStripInput, wrongFieldEntries, goodFieldEntries, dataTypes, joinPath,
      parametersDefinition, List.lookup, isBoolValue, isNumberValue, isStringValue,
      isBoolOrBoolString, isDynamicValue, isNumericObject, isStringOrArrayOfStrings,
      isArrayOfStrings, isAnyValue]

/-- Witness for C5's general clauses at the fixture's `store` parameter:
wrongly-typed on `wrongField` (stripped, one error), correctly-typed on
`goodField` (kept, no error). -/
theorem validateProperties_parameter_stripping_witness :
    List.count (.parameter "wrongField" "store")
        (validateFieldEntries "wrongField" wrongFieldEntries).2 = 1 ∧
      ("store", JsonValue.bool true) ∈
        (validateFieldEntries "goodField" goodFieldEntries).1 := by
  constructor
  · exact (validateProperties_parameter_stripping.1 "wrongField" (by decide)
      wrongFieldEntries (by decide) "store" (.str "abc")
      (by simp [wrongFieldEntries]) (by decide) (by decide)
      (Or.inr ⟨isBoolValue, by simp [parametersDefinition, List.lookup], rfl⟩)).1
  · exact (validateProperties_parameter_stripping.2.1 "goodField" (by decide)
      goodFieldEntries (by decide) "store" (.bool true) isBoolValue
      (by simp [goodFieldEntries]) (by decide) (by decide)
      (by simp [parametersDefinition, List.lookup]) rfl).1

/-- **C7.** The `copy_to` shape predicate accepts a single string and an
array of strings (both survive validation without error) and rejects an
array of non-strings such as `[1]` with `ERR_PARAMETER`; the `dynamic`
parameter accepts exactly `true`, `false`, `"strict"`, `"true"`, `"false"`
and `"runtime"` (so e.g. `[true]` is rejected); and the legacy boolean
parameter `null_value_boolean` additionally accepts the strings
`"true"`/`"false"` while the plain boolean parameter `enabled` does not
accept string forms. -/
theorem parameter_shape_special_cases :
    validateProperties (.obj [("f", .obj [("type", .str "text"),
        ("copy_to", .str "abc")])]) =
      ⟨[("f", .obj [("type", .str "text"), ("copy_to", .str "abc")])], []⟩ ∧
    validateProperties (.obj [("f", .obj [("type", .str "text"),
        ("copy_to", .arr [.str "field1", .str "field2"])])]) =
      ⟨[("f", .obj [("type", .str "text"),
          ("copy_to", .arr [.str "field1", .str "field2"])])], []⟩ ∧
    validateProperties (.obj [("f", .obj [("type", .str "text"),
        ("copy_to", .arr [.num 1])])]) =
      ⟨[("f", .obj [("type", .str "text")])], [.parameter "f" "copy_to"]⟩ ∧
    List.lookup "dynamic" parametersDefinition = some isDynamicValue ∧
    (∀ v, isDynamicValue v = true ↔
      v = .bool true ∨ v = .bool false ∨ v = .str "strict" ∨ v = .str "true" ∨
        v = .str "false" ∨ v = .str "runtime") ∧
    validateProperties (.obj [("f", .obj [("type", .str "object"),
        ("dynamic", .arr [.bool true])])]) =
      ⟨[("f", .obj [("type", .str "object")])], [.parameter "f" "dynamic"]⟩ ∧
    List.lookup "null_value_boolean" parametersDefinition = some isBoolOrBoolString ∧
    isBoolOrBoolString (.str "true") = true ∧
    isBoolOrBoolString (.str "false") = true ∧
    isBoolOrBoolString (.bool true) = true ∧
    isBoolOrBoolString (.bool false) = true ∧
    List.lookup "enabled" parametersDefinition = some isBoolValue ∧
    isBoolValue (.str "true") = false ∧
    isBoolValue (.str "false") = false := by
  refine ⟨?_, ?_, ?_, ?_, ?hdyn, ?_, ?_, ?_, ?_, ?_, ?_, ?_, ?_, ?_⟩
  case hdyn =>
    intro v
    cases v with
    | bool b => cases b <;> simp [isDynamicValue]
    | str s => simp [isDynamicValue]; tauto
    | num n => simp [isDynamicValue]
    | null => simp [isDynamicValue]
    | undef => simp [isDynamicValue]
    | arr xs => simp [isDynamicValue]
    | obj o => simp [isDynamicValue]
  all_goals first
  | rfl
  | simp [validateProperties, validateFields, validateFieldEntries, dataTypes,
      joinPath, parametersDefinition, List.lookup, isStringOrArrayOfStrings,
      isStringValue, isArrayOfStrings, isDynamicValue, isBoolOrBoolString,
      isBoolValue]

/-- Witness for C7's universally quantified `dynamic` clause at the
concrete rejected value `[true]`. -/
theorem parameter_shape_special_cases_witness :
    isDynamicValue (.arr [.bool true]) = false ∧ isDynamicValue (.str "runtime") = true := by
  constructor
  · have h := parameter_shape_special_cases.2.2.2.2.1 (.arr [.bool true])
    refine Bool.eq_false_iff.mpr fun hc => ?_
    rcases h.mp hc with h1 | h1 | h1 | h1 | h1 | h1 <;> cases h1
  · exact (parameter_shape_special_cases.2.2.2.2.1 (.str "runtime")).mpr (by tauto)

/-- **C10.** The `dims` parameter's shape predicate accepts a string value
(`dims: "abc"` survives validation unchanged) and rejects a boolean
(`dims: false` is stripped with `ERR_PARAMETER`); `dims` is bound to the
string predicate, not the number predicate — unlike a numeric-valued
parameter such as `ignore_above`, for which the same string `"abc"` is
stripped. -/
theorem dims_parameter_string_shape :
    validateProperties (.obj [("f", .obj [("type", .str "text"),
        ("dims", .str "abc")])]) =
      ⟨[("f", .obj [("type", .str "text"), ("dims", .str "abc")])], []⟩ ∧
    validateProperties (.obj [("f", .obj [("type", .str "text"),
        ("dims", .bool false)])]) =
      ⟨[("f", .obj [("type", .str "text")])], [.parameter "f" "dims"]⟩ ∧
    List.lookup "dims" parametersDefinition = some isStringValue ∧
    validateProperties (.obj [("f", .obj [("type", .str "text"),
        ("ignore_above", .str "abc")])]) =
      ⟨[("f", .obj [("type", .str "text")])], [.parameter "f" "ignore_above"]⟩ := by
  refine ⟨?_, ?_, rfl, ?_⟩ <;>
    simp [validateProperties, validateFields, validateFieldEntries, dataTypes,
      joinPath, parametersDefinition, List.lookup, isStringValue, isBoolValue,
      isNumberValue]

/-! ## Lookup lemmas for the top-level value -/

/-- `validateProperties` on anything that is not a plain object: empty
mapping, empty error list. -/
theorem validateProperties_not_object {v : JsonValue}
    (h : isPlainObject v = false) : validateProperties v = ⟨[], []⟩ := by
  cases v <;> simp_all [isPlainObject, validateProperties]

/-- The top-level keeper preserves the entry's key. -/
theorem keepTopLevelEntry_key {pid : List String}
    {pv : List (String × JsonValue)} {e r : String × JsonValue}
    (h : keepTopLevelEntry pid pv e = some r) : r.1 = e.1 := by
  obtain ⟨k, v⟩ := e
  by_cases hp : k = "properties"
  · subst hp
    simp [keepTopLevelEntry] at h
    first
    | exact (congrArg Prod.fst h).symm
    | exact congrArg Prod.fst h
  · by_cases hd : k = "dynamic_templates"
    · subst hd
      simp [keepTopLevelEntry, hp] at h
      first
      | exact (congrArg Prod.fst h).symm
      | exact congrArg Prod.fst h
    · rcases hc : List.lookup k configurationKeys with _ | pred
      · rcases hg : List.lookup k pluginKeys with _ | pp
        · simp [keepTopLevelEntry, hp, hd, hc, hg] at h
        · simp [keepTopLevelEntry, hp, hd, hc, hg] at h
          first
          | exact (congrArg Prod.fst h.2).symm
          | exact congrArg Prod.fst h.2
      · simp [keepTopLevelEntry, hp, hd, hc] at h
        first
        | exact (congrArg Prod.fst h.2).symm
        | exact congrArg Prod.fst h.2

/-- Looking a key up in a key-preserving `filterMap` misses when it misses
in the original list. -/
theorem lookup_filterMap_none {f : String × JsonValue → Option (String × JsonValue)}
    (hk : ∀ e r, f e = some r → r.1 = e.1) {k : String} :
    ∀ {l : List (String × JsonValue)}, List.lookup k l = none →
      List.lookup k (l.filterMap f) = none := by
  intro l
  induction l with
  | nil => simp
  | cons e rest ih =>
      intro h
      obtain ⟨k1, v1⟩ := e
      by_cases hek : k = k1
      · subst hek
        simp [List.lookup_cons] at h
      · simp only [List.lookup_cons] at h
        rw [show (k == k1) = false by simp [hek]] at h
        rcases hf : f (k1, v1) with _ | r
        · rw [List.filterMap_cons, hf]
          exact ih h
        · rw [List.filterMap_cons, hf, List.lookup_cons]
          rw [show (k == r.1) = false by simp [hk _ _ hf, hek]]
          exact ih h

/-- Looking up a key every occurrence of which maps to the same constant
entry: the `filterMap` returns that constant whenever the key is present. -/
theorem lookup_filterMap_const {f : String × JsonValue → Option (String × JsonValue)}
    (hk : ∀ e r, f e = some r → r.1 = e.1) {k : String} {c : JsonValue}
    (hconst : ∀ v, f (k, v) = some (k, c)) :
    ∀ {l : List (String × JsonValue)}, (List.lookup k l).isSome →
      List.lookup k (l.filterMap f) = some c := by
  intro l
  induction l with
  | nil => simp
  | cons e rest ih =>
      intro h
      obtain ⟨k1, v1⟩ := e
      by_cases hek : k = k1
      · subst hek
        rw [List.filterMap_cons, hconst v1, List.lookup_cons]
        simp
      · simp only [List.lookup_cons] at h
        rw [show (k == k1) = false by simp [hek]] at h
        rcases hf : f (k1, v1) with _ | r
        · rw [List.filterMap_cons, hf]
          exact ih h
        · rw [List.filterMap_cons, hf, List.lookup_cons]
          rw [show (k == r.1) = false by simp [hk _ _ hf, hek]]
          exact ih h

/-- A successful lookup names an entry of the list. -/
theorem lookup_mem {k : String} {v : JsonValue} :
    ∀ {l : List (String × JsonValue)}, List.lookup k l = some v → (k, v) ∈ l := by
  intro l
  induction l with
  | nil => simp
  | cons e rest ih =>
      intro h
      obtain ⟨k1, v1⟩ := e
      by_cases hek : k = k1
      · subst hek
        simp only [List.lookup_cons] at h
        rw [show (k == k) = true by simp] at h
        simp only [Option.some.injEq] at h
        simp [h]
      · simp only [List.lookup_cons] at h
        rw [show (k == k1) = false by simp [hek]] at h
        exact List.mem_cons_of_mem _ (ih h)

/-- Under nodup keys, if the (unique) entry at a key is filtered out, the
key misses in the `filterMap`. -/
theorem lookup_filterMap_none_of_dropped
    {f : String × JsonValue → Option (String × JsonValue)}
    (hk : ∀ e r, f e = some r → r.1 = e.1) {k : String} {v : JsonValue} :
    ∀ {l : List (String × JsonValue)}, (l.map Prod.fst).Nodup →
      List.lookup k l = some v → f (k, v) = none →
      List.lookup k (l.filterMap f) = none := by
  intro l
  induction l with
  | nil => simp
  | cons e rest ih =>
      intro hnd h hf
      obtain ⟨k1, v1⟩ := e
      rw [List.map_cons, List.nodup_cons] at hnd
      by_cases hek : k = k1
      · subst hek
        simp only [List.lookup_cons] at h
        rw [show (k == k) = true by simp] at h
        obtain rfl : v1 = v := by simpa using h
        rw [List.filterMap_cons, hf]
        apply lookup_filterMap_none hk
        rcases hrest : List.lookup k rest with _ | w
        · rfl
        · exfalso
          have hmem := lookup_mem hrest
          have hk2 : k ∈ List.map Prod.fst rest := List.mem_map_of_mem Prod.fst hmem
          exact hnd.1 hk2
      · simp only [List.lookup_cons] at h
        rw [show (k == k1) = false by simp [hek]] at h
        rcases hfe : f (k1, v1) with _ | r
        · rw [List.filterMap_cons, hfe]
          exact ih hnd.2 h hf
        · rw [List.filterMap_cons, hfe, List.lookup_cons]
          rw [show (k == r.1) = false by simp [hk _ _ hfe, hek]]
          exact ih hnd.2 h hf

/-- A lookup that hits in the left part of an append ignores the right
part. -/
theorem lookup_append_left {k : String} {c : JsonValue}
    {a b : List (String × JsonValue)} (h : List.lookup k a = some c) :
    List.lookup k (a ++ b) = some c := by
  induction a with
  | nil => cases h
  | cons e rest ih =>
      obtain ⟨k1, v1⟩ := e
      rw [List.cons_append, List.lookup_cons]
      simp only [List.lookup_cons] at h
      by_cases hek : k = k1
      · rw [show (k == k1) = true by simp [hek]] at h ⊢
        exact h
      · rw [show (k == k1) = false by simp [hek]] at h ⊢
        exact ih h

/-- A lookup that misses in the left part of an append continues in the
right part. -/
theorem lookup_append_right {k : String} {a b : List (String × JsonValue)}
    (h : List.lookup k a = none) :
    List.lookup k (a ++ b) = List.lookup k b := by
  induction a with
  | nil => simp
  | cons e rest ih =>
      obtain ⟨k1, v1⟩ := e
      rw [List.cons_append, List.lookup_cons]
      simp only [List.lookup_cons] at h
      by_cases hek : k = k1
      · rw [show (k == k1) = true by simp [hek]] at h
        cases h
      · rw [show (k == k1) = false by simp [hek]] at h ⊢
        exact ih h

/-- Looking up a key whose every occurrence survives with a transformed
value: the `filterMap` answers with the transform of the original lookup. -/
theorem lookup_filterMap_mapped {f : String × JsonValue → Option (String × JsonValue)}
    (hk : ∀ e r, f e = some r → r.1 = e.1) {k : String} {g : JsonValue → JsonValue}
    (hmap : ∀ v, f (k, v) = some (k, g v)) :
    ∀ {l : List (String × JsonValue)},
      List.lookup k (l.filterMap f) = (List.lookup k l).map g := by
  intro l
  induction l with
  | nil => simp
  | cons e rest ih =>
      obtain ⟨k1, v1⟩ := e
      by_cases hek : k = k1
      · subst hek
        rw [List.filterMap_cons, hmap v1, List.lookup_cons, List.lookup_cons]
        simp
      · rw [List.lookup_cons]
        rw [show (k == k1) = false by simp [hek]]
        rcases hf : f (k1, v1) with _ | r
        · rw [List.filterMap_cons, hf]
          exact ih
        · rw [List.filterMap_cons, hf, List.lookup_cons]
          rw [show (k == r.1) = false by simp [hk _ _ hf, hek]]
          exact ih

/-- **C9.** For every plain-object input, the value returned by
`validateMappings` always contains a `properties` key — bound to the cleaned
properties, hence an empty object when the input's `properties` was absent
or not a plain object — and a `dynamic_templates` key — an empty array when
absent or not an array — while no other key absent from the input is ever
added to the output. -/
theorem validateMappings_value_always_has_properties_and_templates
    (entries : List (String × JsonValue)) (pid : List String) :
    ∃ l, (validateMappings (.obj entries) pid).value = .obj l ∧
      List.lookup "properties" l = some (.obj
        (validateProperties ((List.lookup "properties" entries).getD .undef)).value) ∧
      ((List.lookup "properties" entries = none ∨
          isPlainObject ((List.lookup "properties" entries).getD .undef) = false) →
        List.lookup "properties" l = some (.obj [])) ∧
      (List.lookup "dynamic_templates" l).isSome ∧
      ((List.lookup "dynamic_templates" entries = none ∨
          isArrayValue ((List.lookup "dynamic_templates" entries).getD .undef) = false) →
        List.lookup "dynamic_templates" l = some (.arr [])) ∧
      (∀ k, List.lookup k entries = none → k ≠ "properties" →
        k ≠ "dynamic_templates" → List.lookup k l = none) := by
  have hK : ∀ e r, keepTopLevelEntry pid
      (validateProperties ((List.lookup "properties" entries).getD .undef)).value e =
        some r → r.1 = e.1 := fun e r h => keepTopLevelEntry_key h
  have hconstP : ∀ v, keepTopLevelEntry pid
      (validateProperties ((List.lookup "properties" entries).getD .undef)).value
        ("properties", v) =
      some ("properties", .obj
        (validateProperties ((List.lookup "properties" entries).getD .undef)).value) := by
    intro v
    simp [keepTopLevelEntry]
  have hmainP : List.lookup "properties"
      (objFields (validateMappings (.obj entries) pid).value) = some (.obj
        (validateProperties ((List.lookup "properties" entries).getD .undef)).value) := by
    simp only [validateMappings, objFields]
    by_cases hpl : (List.lookup "properties" entries).isSome
    · have hkept := lookup_filterMap_const hK hconstP hpl
      by_cases hdl : (List.lookup "dynamic_templates" entries).isSome
      · rw [if_pos hpl, if_pos hdl]
        exact hkept
      · rw [if_pos hpl, if_neg hdl]
        exact lookup_append_left hkept
    · have hnone : List.lookup "properties" entries = none :=
        Option.not_isSome_iff_eq_none.mp hpl
      have hkept := lookup_filterMap_none hK hnone
      by_cases hdl : (List.lookup "dynamic_templates" entries).isSome
      · rw [if_neg hpl, if_pos hdl]
        rw [lookup_append_right hkept]
        simp [List.lookup_cons]
      · rw [if_neg hpl, if_neg hdl]
        have hsing : List.lookup "properties"
            (List.filterMap (keepTopLevelEntry pid
              (validateProperties ((List.lookup "properties" entries).getD .undef)).value)
              entries ++
              [("properties", .obj (validateProperties
                ((List.lookup "properties" entries).getD .undef)).value)]) =
            some (.obj (validateProperties
              ((List.lookup "properties" entries).getD .undef)).value) := by
          rw [lookup_append_right hkept]
          simp [List.lookup_cons]
        exact lookup_append_left hsing
  have hmainD : List.lookup "dynamic_templates"
      (objFields (validateMappings (.obj entries) pid).value) = some
        (match List.lookup "dynamic_templates" entries with
          | some v => if isArrayValue v then v else .arr []
          | none => .arr []) := by
    simp only [validateMappings, objFields]
    have hmapD : ∀ v, keepTopLevelEntry pid
        (validateProperties ((List.lookup "properties" entries).getD .undef)).value
          ("dynamic_templates", v) =
        some ("dynamic_templates", if isArrayValue v then v else .arr []) := by
      intro v
      simp [keepTopLevelEntry]
    by_cases hdl : (List.lookup "dynamic_templates" entries).isSome
    · rcases Option.isSome_iff_exists.mp hdl with ⟨v, hv⟩
      have hkept : List.lookup "dynamic_templates"
          (entries.filterMap (keepTopLevelEntry pid
            (validateProperties ((List.lookup "properties" entries).getD .undef)).value)) =
          some (if isArrayValue v then v else .arr []) := by
        rw [lookup_filterMap_mapped hK hmapD, hv]
        rfl
      by_cases hpl : (List.lookup "properties" entries).isSome
      · rw [if_pos hpl, if_pos hdl, hv]
        exact hkept
      · rw [if_neg hpl, if_pos hdl, hv]
        exact lookup_append_left hkept
    · have hnone : List.lookup "dynamic_templates" entries = none :=
        Option.not_isSome_iff_eq_none.mp hdl
      have hkept := lookup_filterMap_none hK hnone
      by_cases hpl : (List.lookup "properties" entries).isSome
      · rw [if_pos hpl, if_neg hdl, hnone]
        rw [lookup_append_right hkept]
        simp [List.lookup_cons]
      · rw [if_neg hpl, if_neg hdl, hnone]
        rw [lookup_append_right]
        · simp [List.lookup_cons]
        · rw [lookup_append_right hkept]
          simp [List.lookup_cons]
  refine ⟨objFields (validateMappings (.obj entries) pid).value, rfl, hmainP, ?_, ?_, ?_, ?_⟩
  · intro hbad
    have hempty : (validateProperties
        ((List.lookup "properties" entries).getD .undef)).value = [] := by
      rcases hbad with h | h
      · rw [h]
        rfl
      · rw [validateProperties_not_object h]
    rw [hmainP, hempty]
  · rw [hmainD]
    rfl
  · intro hbad
    rw [hmainD]
    rcases hbad with h | h
    · rw [h]
    · rcases hv : List.lookup "dynamic_templates" entries with _ | v
      · rfl
      · rw [hv] at h
        simp only [Option.getD] at h
        simp [h]
  · intro k hk hkp hkd
    simp only [validateMappings, objFields]
    have hkept := lookup_filterMap_none hK hk
    by_cases hpl : (List.lookup "properties" entries).isSome <;>
      by_cases hdl : (List.lookup "dynamic_templates" entries).isSome
    · rw [if_pos hpl, if_pos hdl]
      exact hkept
    · rw [if_pos hpl, if_neg hdl]
      rw [lookup_append_right hkept, List.lookup_cons]
      rw [show (k == "dynamic_templates") = false by simp [hkd]]
      rfl
    · rw [if_neg hpl, if_pos hdl]
      rw [lookup_append_right hkept, List.lookup_cons]
      rw [show (k == "properties") = false by simp [hkp]]
      rfl
    · rw [if_neg hpl, if_neg hdl]
      rw [lookup_append_right]
      · rw [List.lookup_cons]
        rw [show (k == "dynamic_templates") = false by simp [hkd]]
        rfl
      · rw [lookup_append_right hkept, List.lookup_cons]
        rw [show (k == "properties") = false by simp [hkp]]
        rfl

/-- Witness for C9 at a concrete input with neither `properties` nor
`dynamic_templates`: both keys appear in the output with their empty
defaults. -/
theorem validateMappings_value_always_has_properties_and_templates_witness :
    ∃ l, (validateMappings (.obj [("dynamic", .bool true)]) []).value = .obj l ∧
      List.lookup "properties" l = some (.obj []) ∧
      List.lookup "dynamic_templates" l = some (.arr []) := by
  obtain ⟨l, hv, hP, hPempty, hDsome, hDempty, hnone⟩ :=
    validateMappings_value_always_has_properties_and_templates
      [("dynamic", .bool true)] []
  exact ⟨l, hv, hPempty (Or.inl rfl), hDempty (Or.inl rfl)⟩

/-! ## Counting `ERR_CONFIG` errors -/

/-- Generic lookup-to-membership for tables with arbitrary payloads. -/
theorem lookup_mem_table {α : Type} {k : String} {a : α} :
    ∀ {l : List (String × α)}, List.lookup k l = some a → (k, a) ∈ l := by
  intro l
  induction l with
  | nil => simp
  | cons e rest ih =>
      intro h
      obtain ⟨k1, v1⟩ := e
      by_cases hek : k = k1
      · subst hek
        simp only [List.lookup_cons] at h
        rw [show (k == k) = true by simp] at h
        simp only [Option.some.injEq] at h
        simp [h]
      · simp only [List.lookup_cons] at h
        rw [show (k == k1) = false by simp [hek]] at h
        exact List.mem_cons_of_mem _ (ih h)

/-- An emission that only ever produces `ERR_CONFIG` with its entry's key
contributes nothing for a key absent from the table. -/
theorem count_config_filterMap_zero {α : Type}
    {em : String × α → Option ValidationError}
    (hem : ∀ kp r, em kp = some r → r = .config kp.1) {k : String}
    {table : List (String × α)} (hk : ∀ a, (k, a) ∉ table) :
    List.count (.config k) (table.filterMap em) = 0 := by
  rw [List.count_eq_zero]
  intro hmem
  obtain ⟨kp, hkp, hr⟩ := List.mem_filterMap.mp hmem
  have heq := hem kp _ hr
  have hkeq : k = kp.1 := by
    injection heq
  apply hk kp.2
  rw [hkeq]
  exact hkp

/-- Under nodup table keys, an emission that fires with `ERR_CONFIG` at the
(unique) entry of a key contributes exactly one such error. -/
theorem count_config_filterMap_one {α : Type}
    {em : String × α → Option ValidationError}
    (hem : ∀ kp r, em kp = some r → r = .config kp.1) {k : String} {a : α}
    {table : List (String × α)} (hnd : (table.map Prod.fst).Nodup)
    (hin : (k, a) ∈ table) (hemk : em (k, a) = some (.config k)) :
    List.count (.config k) (table.filterMap em) = 1 := by
  obtain ⟨t1, t2, rfl⟩ := List.append_of_mem hin
  have hnd1 : (∀ b : α, (k, b) ∉ t1) ∧ (∀ b : α, (k, b) ∉ t2) := by
    rw [List.map_append, List.map_cons] at hnd
    obtain ⟨h1, h2, hdisj⟩ := List.nodup_append.mp hnd
    constructor
    · intro b hb
      exact hdisj (List.mem_map_of_mem Prod.fst hb) (List.mem_cons_self _ _)
    · intro b hb
      have h3 : k ∈ List.map Prod.fst t2 := List.mem_map_of_mem Prod.fst hb
      exact (List.nodup_cons.mp h2).1 h3
  rw [List.filterMap_append, List.filterMap_cons, hemk, List.count_append,
    List.count_cons, count_config_filterMap_zero hem hnd1.1,
    count_config_filterMap_zero hem hnd1.2]
  simp

/-- A key misses in a table exactly when no entry bears it. -/
theorem lookup_none_iff_not_mem {α : Type} {k : String} :
    ∀ {l : List (String × α)}, List.lookup k l = none ↔ ∀ a, (k, a) ∉ l := by
  intro l
  induction l with
  | nil => simp
  | cons e rest ih =>
      obtain ⟨k1, v1⟩ := e
      by_cases hek : k = k1
      · subst hek
        constructor
        · intro h
          simp only [List.lookup_cons] at h
          rw [show (k == k) = true by simp] at h
          cases h
        · intro h
          exact absurd (List.mem_cons_self _ _) (h v1)
      · simp only [List.lookup_cons]
        rw [show (k == k1) = false by simp [hek]]
        rw [ih]
        constructor
        · intro h a hmem
          rcases List.mem_cons.mp hmem with h1 | h1
          · exact hek (congrArg Prod.fst h1)
          · exact h a h1
        · intro h a hmem
          exact h a (List.mem_cons_of_mem _ hmem)

/-- The errors wrapper of `validateMappings` unwraps to the raw error
list. -/
theorem errors_getD (E : List ValidationError) :
    (if E.isEmpty then (none : Option (List ValidationError)) else some E).getD [] = E := by
  cases E <;> simp

/-- The Properties Validator never emits `ERR_CONFIG`. -/
theorem validateProperties_no_config (x : JsonValue) (k : String) :
    ValidationError.config k ∉ (validateProperties x).errors := by
  cases x with
  | obj entries =>
      intro hmem
      exact validateFields_no_config "" entries _ hmem k rfl
  | str s => simp [validateProperties]
  | num n => simp [validateProperties]
  | bool b => simp [validateProperties]
  | null => simp [validateProperties]
  | undef => simp [validateProperties]
  | arr xs => simp [validateProperties]

/-- A top-level key is bad for a given plugin list exactly when it is
unknown, a recognized configuration key whose value fails its predicate, or
a plugin-gated key that is not both enabled and shape-valid (spec 4.1). -/
def isBadTopLevelKey (enabledPluginIds : List String) (k : String)
    (v : JsonValue) : Bool :=
  !(isRecognizedKey k) ||
    (match List.lookup k configurationKeys with
     | some pred => !(pred v)
     | none =>
         match List.lookup k pluginKeys with
         | some pp => !(enabledPluginIds.contains pp.2 && pp.1 v)
         | none => false)

/-- A bad top-level key's entry is dropped by the keeper. -/
theorem keepTopLevelEntry_none_of_bad {pid : List String}
    {pv : List (String × JsonValue)} {k : String} {v : JsonValue}
    (h : isBadTopLevelKey pid k v = true) :
    keepTopLevelEntry pid pv (k, v) = none := by
  by_cases hrec : isRecognizedKey k
  · simp only [isBadTopLevelKey, hrec, Bool.not_true, Bool.false_or] at h
    rcases hc : List.lookup k configurationKeys with _ | pred
    · rcases hg : List.lookup k pluginKeys with _ | pp
      · rw [hc, hg] at h
        cases h
      · rw [hc, hg] at h
        rw [Bool.not_eq_eq_eq_not, Bool.not_true] at h
        have hkp : k ≠ "properties" := by
          intro hcon
          rw [hcon] at hg
          simp [pluginKeys, List.lookup_cons] at hg
        have hkd : k ≠ "dynamic_templates" := by
          intro hcon
          rw [hcon] at hg
          simp [pluginKeys, List.lookup_cons] at hg
        simp [keepTopLevelEntry, hkp, hkd, hc, hg, h]
        intro hmem2
        have hcon2 : pid.contains pp.2 = true := by simpa using hmem2
        rw [hcon2, Bool.true_and] at h
        exact h
    · rw [hc] at h
      rw [Bool.not_eq_eq_eq_not, Bool.not_true] at h
      have hkp : k ≠ "properties" := by
        intro hcon
        rw [hcon] at hc
        simp [configurationKeys, List.lookup_cons] at hc
      have hkd : k ≠ "dynamic_templates" := by
        intro hcon
        rw [hcon] at hc
        simp [configurationKeys, List.lookup_cons] at hc
      simp [keepTopLevelEntry, hkp, hkd, hc, h]
  · have hkp2 : k ≠ "properties" := by
      intro hcon
      rw [hcon] at hrec
      exact hrec (by decide)
    have hkd2 : k ≠ "dynamic_templates" := by
      intro hcon
      rw [hcon] at hrec
      exact hrec (by decide)
    have hc : List.lookup k configurationKeys = none := by
      rcases hx : List.lookup k configurationKeys with _ | pred
      · rfl
      · exact absurd (by simp [isRecognizedKey, hx]) hrec
    have hg : List.lookup k pluginKeys = none := by
      rcases hx : List.lookup k pluginKeys with _ | pp
      · rfl
      · exact absurd (by simp [isRecognizedKey, hx]) hrec
    simp [keepTopLevelEntry, hkp2, hkd2, hc, hg]

/-- Emissions of the config/plugin error tables are always `ERR_CONFIG` at
the table entry's own key. -/
theorem hem_tableErrors {α : Type} (test : String × α → JsonValue → Bool)
    (entries : List (String × JsonValue)) :
    ∀ (kp : String × α) (r : ValidationError),
      (match List.lookup kp.1 entries with
        | some v => if test kp v then none else some (.config kp.1)
        | none => none) = some r → r = ValidationError.config kp.1 := by
  intro kp r h
  rcases he : List.lookup kp.1 entries with _ | v <;> rw [he] at h
  · cases h
  · by_cases ht : test kp v
    · simp [ht] at h
    · simp [ht] at h
      exact h.symm

/-- Emissions of the unknown-key pass are always `ERR_CONFIG` at the
entry's own key. -/
theorem hem_unknownKeyErrors :
    ∀ (e : String × JsonValue) (r : ValidationError),
      (if isRecognizedKey e.1 then none else some (ValidationError.config e.1)) =
        some r → r = ValidationError.config e.1 := by
  intro e r h
  by_cases hre : isRecognizedKey e.1
  · simp [hre] at h
  · simp [hre] at h
    exact h.symm

/-- The unknown-key pass never reports a recognized key. -/
theorem count_config_unknown_zero {entries : List (String × JsonValue)}
    {k : String} (hrec : isRecognizedKey k = true) :
    List.count (.config k) (unknownKeyErrors entries) = 0 := by
  rw [List.count_eq_zero]
  intro hmem
  obtain ⟨e, he, hr⟩ := List.mem_filterMap.mp hmem
  by_cases hre : isRecognizedKey e.1
  · simp [unknownKeyErrors, hre] at hr
  · simp [unknownKeyErrors, hre] at hr
    rw [hr] at hre
    exact hre hrec

/-- The raw error list of `validateMappings` on a plain object. -/
theorem validateMappings_errors_getD (entries : List (String × JsonValue))
    (pid : List String) :
    ((validateMappings (.obj entries) pid).errors).getD [] =
      configKeyErrors entries ++ pluginKeyErrors entries pid ++
        unknownKeyErrors entries ++
        (validateProperties ((List.lookup "properties" entries).getD .undef)).errors := by
  simp only [validateMappings]
  exact errors_getD _

/-- Under nodup keys, lookups are invariant under permutation of the
entries. -/
theorem lookup_eq_of_perm {β : Type} {l1 l2 : List (String × β)} (h : l1.Perm l2) :
    (l1.map Prod.fst).Nodup → ∀ k : String, List.lookup k l1 = List.lookup k l2 := by
  induction h with
  | nil => intro _ _; rfl
  | cons e h ih =>
      intro hnd k
      obtain ⟨k1, v1⟩ := e
      rw [List.map_cons, List.nodup_cons] at hnd
      rw [List.lookup_cons, List.lookup_cons]
      by_cases hek : k = k1
      · rw [show (k == k1) = true by simp [hek]]
      · rw [show (k == k1) = false by simp [hek]]
        exact ih hnd.2 k
  | swap x y t =>
      intro hnd k
      obtain ⟨kx, vx⟩ := x
      obtain ⟨ky, vy⟩ := y
      rw [List.map_cons, List.map_cons, List.nodup_cons] at hnd
      have hxy : ky ≠ kx := by
        intro hcon
        exact hnd.1 (by simp [hcon])
      rw [List.lookup_cons, List.lookup_cons, List.lookup_cons, List.lookup_cons]
      by_cases hk1 : k = ky <;> by_cases hk2 : k = kx
      · exact absurd (hk1.symm.trans hk2) hxy
      · rw [show (k == ky) = true by simp [hk1], show (k == kx) = false by simp [hk2]]
      · rw [show (k == ky) = false by simp [hk1], show (k == kx) = true by simp [hk2]]
      · rw [show (k == ky) = false by simp [hk1], show (k == kx) = false by simp [hk2]]
  | trans h1 h2 ih1 ih2 =>
      intro hnd k
      have hnd2 := ((h1.map Prod.fst).nodup_iff).mp hnd
      rw [ih1 hnd k, ih2 hnd2 k]

/-- The input of the test `should strip out invalid configuration and
returns the errors for each of them`: a wrongly-typed `numeric_detection`
and `dynamic_date_formats`, a `_source` with an unknown sub-key, a
non-object `properties` and a `_size` without its plugin enabled. -/
def invalidConfigInput : List (String × JsonValue) :=
  [("dynamic", .bool true),
   ("numeric_detection", .num 123),
   ("dynamic_date_formats", .bool false),
   ("_source", .obj [("enabled", .bool true), ("unknownProp", .str "abc"),
     ("excludes", .arr [.str "abc"])]),
   ("properties", .str "abc"),
   ("_size", .obj [("enabled", .bool true)])]

/-- **C1.** On a plain-object input, every top-level key that is unknown,
fails its shape predicate, or is plugin-gated without its plugin id enabled
is omitted from the returned value and reported as exactly one `ERR_CONFIG`
carrying that key (general clause, under nodup keys); in particular, on the
test input with invalid `_source`, `dynamic_date_formats`,
`numeric_detection` and un-enabled `_size`, the returned value is
`{dynamic: true, properties: {}, dynamic_templates: []}` and the errors are
exactly the four `ERR_CONFIG` entries for `_source`,
`dynamic_date_formats`, `numeric_detection`, `_size` in that canonical
order — and the same holds for every permutation of the input's entries,
with the value equal up to entry order. -/
theorem validateMappings_bad_config_keys :
    (∀ (entries : List (String × JsonValue)) (pid : List String)
      (k : String) (v : JsonValue),
      (entries.map Prod.fst).Nodup → List.lookup k entries = some v →
      isBadTopLevelKey pid k v = true →
      List.lookup k (objFields (validateMappings (.obj entries) pid).value) = none ∧
      List.count (.config k)
        (((validateMappings (.obj entries) pid).errors).getD []) = 1) ∧
    validateMappings (.obj invalidConfigInput) [] =
      ⟨.obj [("dynamic", .bool true), ("properties", .obj []),
        ("dynamic_templates", .arr [])],
       some [.config "_source", .config "dynamic_date_formats",
         .config "numeric_detection", .config "_size"]⟩ ∧
    (∀ l : List (String × JsonValue), l.Perm invalidConfigInput →
      (validateMappings (.obj l) []).errors =
        some [.config "_source", .config "dynamic_date_formats",
          .config "numeric_detection", .config "_size"] ∧
      (objFields (validateMappings (.obj l) []).value).Perm
        [("dynamic", .bool true), ("properties", .obj []),
         ("dynamic_templates", .arr [])]) := by
  have hfix : validateMappings (.obj invalidConfigInput) [] =
      ⟨.obj [("dynamic", .bool true), ("properties", .obj []),
        ("dynamic_templates", .arr [])],
       some [.config "_source", .config "dynamic_date_formats",
         .config "numeric_detection", .config "_size"]⟩ := rfl
  refine ⟨?_, hfix, ?_⟩
  · intro entries pid k v hnd hlk hbad
    have hK : ∀ e r, keepTopLevelEntry pid
        (validateProperties ((List.lookup "properties" entries).getD .undef)).value e =
          some r → r.1 = e.1 := fun e r h => keepTopLevelEntry_key h
    have hkp : k ≠ "properties" := by
      intro hcon
      rw [hcon] at hbad
      simp [isBadTopLevelKey, isRecognizedKey, configurationKeys, pluginKeys,
        List.lookup] at hbad
    have hkd : k ≠ "dynamic_templates" := by
      intro hcon
      rw [hcon] at hbad
      simp [isBadTopLevelKey, isRecognizedKey, configurationKeys, pluginKeys,
        List.lookup] at hbad
    constructor
    · have hkeep : keepTopLevelEntry pid
          (validateProperties ((List.lookup "properties" entries).getD .undef)).value
            (k, v) = none := keepTopLevelEntry_none_of_bad hbad
      have hkept := lookup_filterMap_none_of_dropped hK hnd hlk hkeep
      simp only [validateMappings, objFields]
      by_cases hpl : (List.lookup "properties" entries).isSome <;>
        by_cases hdl : (List.lookup "dynamic_templates" entries).isSome
      · rw [if_pos hpl, if_pos hdl]
        exact hkept
      · rw [if_pos hpl, if_neg hdl]
        rw [lookup_append_right hkept, List.lookup_cons]
        rw [show (k == "dynamic_templates") = false by simp [hkd]]
        rfl
      · rw [if_neg hpl, if_pos hdl]
        rw [lookup_append_right hkept, List.lookup_cons]
        rw [show (k == "properties") = false by simp [hkp]]
        rfl
      · rw [if_neg hpl, if_neg hdl]
        rw [lookup_append_right]
        · rw [List.lookup_cons]
          rw [show (k == "dynamic_templates") = false by simp [hkd]]
          rfl
        · rw [lookup_append_right hkept, List.lookup_cons]
          rw [show (k == "properties") = false by simp [hkp]]
          rfl
    · rw [validateMappings_errors_getD, List.count_append, List.count_append,
        List.count_append]
      have hprops0 : List.count (ValidationError.config k)
          (validateProperties ((List.lookup "properties" entries).getD .undef)).errors =
          0 := List.count_eq_zero.mpr (validateProperties_no_config _ k)
      by_cases hrec : isRecognizedKey k
      · rcases hc : List.lookup k configurationKeys with _ | pred
        · rcases hg : List.lookup k pluginKeys with _ | pp
          · exfalso
            simp [isRecognizedKey, hc, hg, hkp, hkd] at hrec
          · -- plugin-gated key, gate failed
            have hgate : (pid.contains pp.2 && pp.1 v) = false := by
              have h2 := hbad
              simp only [isBadTopLevelKey, hrec, Bool.not_true, Bool.false_or,
                hc, hg] at h2
              rw [Bool.not_eq_eq_eq_not, Bool.not_true] at h2
              exact h2
            have h1 : List.count (ValidationError.config k)
                (configKeyErrors entries) = 0 :=
              count_config_filterMap_zero (hem_tableErrors _ entries)
                (lookup_none_iff_not_mem.mp hc)
            have h2 : List.count (ValidationError.config k)
                (pluginKeyErrors entries pid) = 1 := by
              apply count_config_filterMap_one (hem_tableErrors _ entries)
                (by decide) (lookup_mem_table hg)
              rw [hlk]
              show (if (pid.contains pp.2 && pp.1 v) = true then none
                else some (ValidationError.config k)) = some (ValidationError.config k)
              simp only [hgate]
              rfl
            have h3 := @count_config_unknown_zero entries _ hrec
            rw [h1, h2, h3, hprops0]
        · -- recognized configuration key, predicate failed
          have hpred : pred v = false := by
            have h2 := hbad
            simp only [isBadTopLevelKey, hrec, Bool.not_true, Bool.false_or,
              hc] at h2
            rw [Bool.not_eq_eq_eq_not, Bool.not_true] at h2
            exact h2
          have h1 : List.count (ValidationError.config k)
              (configKeyErrors entries) = 1 := by
            apply count_config_filterMap_one (hem_tableErrors _ entries)
              (by decide) (lookup_mem_table hc)
            rw [hlk]
            show (if pred v = true then none else some (ValidationError.config k)) =
              some (ValidationError.config k)
            simp [hpred]
          have hgp : List.lookup k pluginKeys = none := by
            by_cases hks : k = "_size"
            · rw [hks] at hc
              simp [configurationKeys, List.lookup] at hc
            · simp only [pluginKeys, List.lookup_cons]
              rw [show (k == "_size") = false by simp [hks]]
              rfl
          have h2 : List.count (ValidationError.config k)
              (pluginKeyErrors entries pid) = 0 :=
            count_config_filterMap_zero (hem_tableErrors _ entries)
              (lookup_none_iff_not_mem.mp hgp)
          have h3 := @count_config_unknown_zero entries _ hrec
          rw [h1, h2, h3, hprops0]
      · -- unknown key
        have hc : List.lookup k configurationKeys = none := by
          rcases hx : List.lookup k configurationKeys with _ | pred
          · rfl
          · exact absurd (by simp [isRecognizedKey, hx]) hrec
        have hg : List.lookup k pluginKeys = none := by
          rcases hx : List.lookup k pluginKeys with _ | pp
          · rfl
          · exact absurd (by simp [isRecognizedKey, hx]) hrec
        have h1 : List.count (ValidationError.config k)
            (configKeyErrors entries) = 0 :=
          count_config_filterMap_zero (hem_tableErrors _ entries)
            (lookup_none_iff_not_mem.mp hc)
        have h2 : List.count (ValidationError.config k)
            (pluginKeyErrors entries pid) = 0 :=
          count_config_filterMap_zero (hem_tableErrors _ entries)
            (lookup_none_iff_not_mem.mp hg)
        have h3 : List.count (ValidationError.config k)
            (unknownKeyErrors entries) = 1 := by
          apply count_config_filterMap_one hem_unknownKeyErrors hnd
            (lookup_mem hlk)
          simp only [Bool.not_eq_true] at hrec
          simp [hrec]
        rw [h1, h2, h3, hprops0]
  · intro l hperm
    have hndl : (l.map Prod.fst).Nodup :=
      ((hperm.map Prod.fst).nodup_iff).mpr (by decide)
    have hlk : ∀ k : String, List.lookup k l = List.lookup k invalidConfigInput :=
      lookup_eq_of_perm hperm hndl
    have hcfg : configKeyErrors l = configKeyErrors invalidConfigInput := by
      unfold configKeyErrors
      exact List.filterMap_congr fun kp _ => by rw [hlk kp.1]
    have hplg : pluginKeyErrors l [] = pluginKeyErrors invalidConfigInput [] := by
      unfold pluginKeyErrors
      exact List.filterMap_congr fun kp _ => by rw [hlk kp.1]
    have hunk : unknownKeyErrors l = [] := by
      have hp := hperm.filterMap
        (fun e => if isRecognizedKey e.1 then none else some (ValidationError.config e.1))
      exact hp.eq_nil
    constructor
    · simp only [validateMappings]
      rw [hcfg, hplg, hunk, hlk "properties"]
      rfl
    · simp only [validateMappings, objFields]
      rw [hlk "properties", hlk "dynamic_templates"]
      rw [if_neg (by decide), if_pos (by decide)]
      exact List.Perm.append_right _ (hperm.filterMap _)

/-- `invalidConfigInput` with its first two entries swapped. -/
def swappedConfigInput : List (String × JsonValue) :=
  [("numeric_detection", .num 123),
   ("dynamic", .bool true),
   ("dynamic_date_formats", .bool false),
   ("_source", .obj [("enabled", .bool true), ("unknownProp", .str "abc"),
     ("excludes", .arr [.str "abc"])]),
   ("properties", .str "abc"),
   ("_size", .obj [("enabled", .bool true)])]

/-- Witness for C1's general clause at the fixture's `numeric_detection`
key and for its permutation clause at the fixture with the first two
entries swapped. -/
theorem validateMappings_bad_config_keys_witness :
    List.count (.config "numeric_detection")
      (((validateMappings (.obj invalidConfigInput) []).errors).getD []) = 1 ∧
    (validateMappings (.obj swappedConfigInput) []).errors =
      some [.config "_source", .config "dynamic_date_formats",
        .config "numeric_detection", .config "_size"] := by
  constructor
  · exact (validateMappings_bad_config_keys.1 invalidConfigInput []
      "numeric_detection" (.num 123) (by decide) rfl (by decide)).2
  · refine (validateMappings_bad_config_keys.2.2 swappedConfigInput ?_).1
    show List.Perm swappedConfigInput invalidConfigInput
    simp only [swappedConfigInput, invalidConfigInput]
    exact List.Perm.swap _ _ _

/-! ## Normalized documents and idempotence -/

mutual

/-- A fully-normalized properties tree (spec 8): every field is a plain
object carrying an explicit recognized string `type`, whose entries are all
normalized. -/
def NormalFields : List (String × JsonValue) → Bool
  | [] => true
  | (_, .obj fe) :: rest =>
      (match List.lookup "type" fe with
       | some (.str t) => decide (t ∈ dataTypes)
       | _ => false) &&
      NormalFieldEntries fe && NormalFields rest
  | _ => false

/-- Normalized entries of one field definition: `type` is free-form (the
walk keeps it verbatim), `properties` is a plain object holding a
normalized tree, and every other entry is a known parameter whose value
passes its shape predicate. -/
def NormalFieldEntries : List (String × JsonValue) → Bool
  | [] => true
  | (key, v) :: rest =>
      (if key = "type" then true
       else if key = "properties" then
         match v with
         | .obj sub => NormalFields sub
         | _ => false
       else
         match List.lookup key parametersDefinition with
         | some pred => pred v
         | none => false) &&
      NormalFieldEntries rest

end

/-- Strong-induction core: the properties traversal is the identity (with
no errors) on normalized trees, at any parent path. -/
theorem normal_fields_fixed :
    ∀ n (p : String) (l : List (String × JsonValue)), sizeOf l ≤ n →
      (NormalFields l = true → validateFields p l = (l, [])) ∧
      (NormalFieldEntries l = true → validateFieldEntries p l = (l, [])) := by
  intro n
  induction n using Nat.strong_induction_on with
  | _ n ih =>
    intro p l hn
    constructor
    · intro hN
      cases l with
      | nil => simp [validateFields]
      | cons e rest =>
          obtain ⟨name, v⟩ := e
          have hszrest : sizeOf rest < n := by
            have h2 : sizeOf ((name, v) :: rest) =
                1 + sizeOf (name, v) + sizeOf rest := by
              simp
            omega
          cases v with
          | obj fe =>
              rw [NormalFields.eq_def] at hN
              simp only [Bool.and_eq_true] at hN
              obtain ⟨⟨hty, hfe⟩, hrest⟩ := hN
              have hszfe : sizeOf fe < n := by
                have h3 : sizeOf fe < sizeOf ((name, JsonValue.obj fe) :: rest) :=
                  sizeOf_nested_lt (List.mem_cons_self _ _)
                omega
              rcases hlt : List.lookup "type" fe with _ | tv
              · rw [hlt] at hty
                cases (hty : false = true)
              · cases tv with
                | str t =>
                    rw [hlt] at hty
                    have htmem : t ∈ dataTypes :=
                      of_decide_eq_true (hty : decide (t ∈ dataTypes) = true)
                    have hwalk := (ih (sizeOf fe) hszfe (joinPath p name) fe le_rfl).2 hfe
                    have htail := (ih (sizeOf rest) hszrest p rest le_rfl).1 hrest
                    simp [validateFields, hlt, htmem, hwalk, htail]
                | num m => rw [hlt] at hty; cases (hty : false = true)
                | bool b => rw [hlt] at hty; cases (hty : false = true)
                | null => rw [hlt] at hty; cases (hty : false = true)
                | undef => rw [hlt] at hty; cases (hty : false = true)
                | arr xs => rw [hlt] at hty; cases (hty : false = true)
                | obj o => rw [hlt] at hty; cases (hty : false = true)
          | str s => rw [NormalFields.eq_def] at hN; simp at hN
          | num m => rw [NormalFields.eq_def] at hN; simp at hN
          | bool b => rw [NormalFields.eq_def] at hN; simp at hN
          | null => rw [NormalFields.eq_def] at hN; simp at hN
          | undef => rw [NormalFields.eq_def] at hN; simp at hN
          | arr xs => rw [NormalFields.eq_def] at hN; simp at hN
    · intro hN
      cases l with
      | nil => simp [validateFieldEntries]
      | cons e rest =>
          obtain ⟨key, v⟩ := e
          rw [NormalFieldEntries.eq_def] at hN
          simp only [Bool.and_eq_true] at hN
          obtain ⟨hhead, hrest⟩ := hN
          have hszrest : sizeOf rest < n := by
            have h2 : sizeOf ((key, v) :: rest) =
                1 + sizeOf (key, v) + sizeOf rest := by
              simp
            omega
          have htail := (ih (sizeOf rest) hszrest p rest le_rfl).2 hrest
          by_cases hty : key = "type"
          · rw [validateFieldEntries.eq_def]
            simp [hty, htail]
          · by_cases hpr : key = "properties"
            · rw [if_neg hty, if_pos hpr] at hhead
              cases v with
              | obj sub =>
                  have hhead2 : NormalFields sub = true := hhead
                  have hszsub : sizeOf sub < n := by
                    have h3 : sizeOf sub <
                        sizeOf ((key, JsonValue.obj sub) :: rest) :=
                      sizeOf_nested_lt (List.mem_cons_self _ _)
                    omega
                  have hsub := (ih (sizeOf sub) hszsub p sub le_rfl).1 hhead2
                  subst hpr
                  rw [validateFieldEntries.eq_def]
                  simp [hty, hsub, htail]
              | str s => cases (hhead : false = true)
              | num m => cases (hhead : false = true)
              | bool b => cases (hhead : false = true)
              | null => cases (hhead : false = true)
              | undef => cases (hhead : false = true)
              | arr xs => cases (hhead : false = true)
            · rw [if_neg hty, if_neg hpr] at hhead
              rcases hl : List.lookup key parametersDefinition with _ | pred
              · rw [hl] at hhead
                cases (hhead : false = true)
              · rw [hl] at hhead
                have hhead2 : pred v = true := hhead
                rw [validateFieldEntries.eq_def]
                simp [hty, hpr, hl, hhead2, htail]


/-! ## C6: idempotence on fully normalized documents -/

/-- One top-level entry of a fully normalized mappings document:
`properties` holds a normalized field tree, `dynamic_templates` holds an
array, a recognized configuration key passes its shape predicate, and a
plugin-gated key is both enabled and shape-valid.  Anything else is not
normal. -/
def NormalMappingsEntry (pid : List String) (e : String × JsonValue) : Bool :=
  if e.1 = "properties" then
    match e.2 with
    | .obj l => NormalFields l
    | _ => false
  else if e.1 = "dynamic_templates" then isArrayValue e.2
  else
    match List.lookup e.1 configurationKeys with
    | some pred => pred e.2
    | none =>
        match List.lookup e.1 pluginKeys with
        | some pp => pid.contains pp.2 && pp.1 e.2
        | none => false

/-- A fully normalized mappings document: distinct top-level keys,
`properties` and `dynamic_templates` both present, and every entry normal. -/
def NormalMappings (pid : List String) (entries : List (String × JsonValue)) : Bool :=
  decide ((entries.map Prod.fst).Nodup) &&
  (List.lookup "properties" entries).isSome &&
  (List.lookup "dynamic_templates" entries).isSome &&
  entries.all (NormalMappingsEntry pid)

/-- With distinct keys, membership determines the lookup. -/
theorem mem_lookup_of_nodup {α : Type} {k : String} {v : α} :
    ∀ {l : List (String × α)}, (l.map Prod.fst).Nodup → (k, v) ∈ l →
      List.lookup k l = some v := by
  intro l
  induction l with
  | nil => intro _ h; cases h
  | cons e rest ih =>
      intro hnd hm
      obtain ⟨k1, v1⟩ := e
      rw [List.map_cons, List.nodup_cons] at hnd
      rcases List.mem_cons.mp hm with h1 | h1
      · rw [Prod.mk.injEq] at h1
        obtain ⟨hk, hv⟩ := h1
        subst hk; subst hv
        simp [List.lookup]
      · have hne : k ≠ k1 := by
          intro h
          have hmem2 : k ∈ List.map Prod.fst rest :=
            List.mem_map_of_mem Prod.fst h1
          rw [h] at hmem2
          exact hnd.1 hmem2
        rw [List.lookup_cons]
        rw [show (k == k1) = false by simp [hne]]
        exact ih hnd.2 h1

/-- A `filterMap` that keeps every element of a list verbatim is the
identity on it. -/
theorem filterMap_id_of_pointwise {α : Type} {f : α → Option α} :
    ∀ {l : List α}, (∀ a ∈ l, f a = some a) → l.filterMap f = l := by
  intro l
  induction l with
  | nil => intro _; rfl
  | cons a rest ih =>
      intro h
      rw [List.filterMap_cons, h a (List.mem_cons_self _ _),
        ih fun b hb => h b (List.mem_cons_of_mem _ hb)]

/-- A `filterMap` that drops every element of a list is empty. -/
theorem filterMap_nil_of_pointwise {α β : Type} {f : α → Option β} :
    ∀ {l : List α}, (∀ a ∈ l, f a = none) → l.filterMap f = [] := by
  intro l
  induction l with
  | nil => intro _; rfl
  | cons a rest ih =>
      intro h
      rw [List.filterMap_cons, h a (List.mem_cons_self _ _),
        ih fun b hb => h b (List.mem_cons_of_mem _ hb)]

/-- A normal entry under a recognized configuration key passes that key's
shape predicate. -/
theorem normal_entry_config {pid : List String} {k : String} {v : JsonValue}
    {pred : JsonValue → Bool}
    (hc : List.lookup k configurationKeys = some pred)
    (he : NormalMappingsEntry pid (k, v) = true) : pred v = true := by
  have hk1 : k ≠ "properties" := by
    intro h; subst h; simp [configurationKeys, List.lookup] at hc
  have hk2 : k ≠ "dynamic_templates" := by
    intro h; subst h; simp [configurationKeys, List.lookup] at hc
  rw [NormalMappingsEntry] at he
  rw [if_neg hk1, if_neg hk2] at he
  rw [hc] at he
  exact he

/-- A normal entry under a plugin-gated key is enabled and shape-valid. -/
theorem normal_entry_plugin {pid : List String} {k : String} {v : JsonValue}
    {pp : (JsonValue → Bool) × String}
    (hc : List.lookup k configurationKeys = none)
    (hp : List.lookup k pluginKeys = some pp)
    (he : NormalMappingsEntry pid (k, v) = true) :
    (pid.contains pp.2 && pp.1 v) = true := by
  have hk1 : k ≠ "properties" := by
    intro h; subst h; simp [pluginKeys, List.lookup] at hp
  have hk2 : k ≠ "dynamic_templates" := by
    intro h; subst h; simp [pluginKeys, List.lookup] at hp
  rw [NormalMappingsEntry] at he
  rw [if_neg hk1, if_neg hk2] at he
  rw [hc, hp] at he
  exact he

/-- Every normal entry bears a recognized top-level key. -/
theorem normal_entry_recognized {pid : List String} {e : String × JsonValue}
    (he : NormalMappingsEntry pid e = true) : isRecognizedKey e.1 = true := by
  rw [NormalMappingsEntry] at he
  by_cases hk1 : e.1 = "properties"
  · simp [isRecognizedKey, hk1]
  · by_cases hk2 : e.1 = "dynamic_templates"
    · simp [isRecognizedKey, hk2]
    · rw [if_neg hk1, if_neg hk2] at he
      rcases hc : List.lookup e.1 configurationKeys with _ | pred
      · rcases hp : List.lookup e.1 pluginKeys with _ | pp
        · rw [hc, hp] at he
          cases (he : false = true)
        · simp [isRecognizedKey, hp]
      · simp [isRecognizedKey, hc]

/-- C6.  Idempotence: a fully normalized mappings document is a fixed point
of `validateMappings`, with errors `undefined`; and a normalized field tree
is a fixed point of `validateProperties`, with an empty error list.  In
particular, running `validateMappings` on its own output changes nothing. -/
theorem validate_normalized_idempotent
    (pid : List String) (entries l : List (String × JsonValue))
    (hN : NormalMappings pid entries = true) (hF : NormalFields l = true) :
    validateMappings (.obj entries) pid =
      ⟨.obj entries, none⟩ ∧
    validateProperties (.obj l) = ⟨l, []⟩ ∧
    validateMappings (validateMappings (.obj entries) pid).value pid =
      validateMappings (.obj entries) pid := by
  have hfix : ∀ (l2 : List (String × JsonValue)),
      NormalFields l2 = true → validateFields "" l2 = (l2, []) :=
    fun l2 h2 => (normal_fields_fixed (sizeOf l2) "" l2 le_rfl).1 h2
  have hP : validateProperties (.obj l) = ⟨l, []⟩ := by
    simp [validateProperties, hfix l hF]
  rw [NormalMappings] at hN
  simp only [Bool.and_eq_true, decide_eq_true_eq, List.all_eq_true] at hN
  obtain ⟨⟨⟨hnd, hps⟩, hdt⟩, hall⟩ := hN
  obtain ⟨pv, hpv⟩ := Option.isSome_iff_exists.mp hps
  have hpmem : ("properties", pv) ∈ entries := lookup_mem hpv
  have hpe := hall _ hpmem
  rw [NormalMappingsEntry] at hpe
  rw [if_pos rfl] at hpe
  cases pv with
  | obj pl =>
      have hpl : NormalFields pl = true := hpe
      have hPP : validateProperties (.obj pl) = ⟨pl, []⟩ := by
        simp [validateProperties, hfix pl hpl]
      have hkeep : ∀ e ∈ entries, keepTopLevelEntry pid pl e = some e := by
        intro e hm
        obtain ⟨k, v⟩ := e
        have he := hall _ hm
        by_cases hk1 : k = "properties"
        · subst hk1
          have hv : v = .obj pl := by
            have := mem_lookup_of_nodup hnd hm
            rw [hpv] at this
            exact (Option.some.injEq _ _).mp this.symm
          subst hv
          simp [keepTopLevelEntry]
        · by_cases hk2 : k = "dynamic_templates"
          · subst hk2
            rw [NormalMappingsEntry] at he
            rw [if_neg hk1, if_pos rfl] at he
            simp [keepTopLevelEntry, hk1, he]
          · rcases hc : List.lookup k configurationKeys with _ | pred
            · rcases hp : List.lookup k pluginKeys with _ | pp
              · exfalso
                rw [NormalMappingsEntry] at he
                rw [if_neg hk1, if_neg hk2, hc, hp] at he
                exact absurd he (by simp)
              · have hok := normal_entry_plugin hc hp he
                rw [Bool.and_eq_true] at hok
                have hmem2 : pp.2 ∈ pid := by simpa using hok.1
                simp [keepTopLevelEntry, hk1, hk2, hc, hp, hok.2, hmem2]
            · have hok := normal_entry_config hc he
              simp [keepTopLevelEntry, hk1, hk2, hc, hok]
      have hkept : entries.filterMap (keepTopLevelEntry pid pl) = entries :=
        filterMap_id_of_pointwise hkeep
      have hcfg : configKeyErrors entries = [] := by
        refine filterMap_nil_of_pointwise ?_
        intro kp hkp
        rcases hl : List.lookup kp.1 entries with _ | v
        · simp [hl]
        · have hm := lookup_mem hl
          have he := hall _ hm
          have htable : List.lookup kp.1 configurationKeys = some kp.2 := by
            have hndc : (configurationKeys.map Prod.fst).Nodup := by
              simp [configurationKeys]
            obtain ⟨k0, p0⟩ := kp
            exact mem_lookup_of_nodup hndc hkp
          have hok := normal_entry_config htable he
          simp [hl, hok]
      have hplg : pluginKeyErrors entries pid = [] := by
        refine filterMap_nil_of_pointwise ?_
        intro kp hkp
        rcases hl : List.lookup kp.1 entries with _ | v
        · simp [hl]
        · have hm := lookup_mem hl
          have he := hall _ hm
          have htable : List.lookup kp.1 pluginKeys = some kp.2 := by
            have hndp : (pluginKeys.map Prod.fst).Nodup := by
              simp [pluginKeys]
            obtain ⟨k0, p0⟩ := kp
            exact mem_lookup_of_nodup hndp hkp
          have hnc : List.lookup kp.1 configurationKeys = none := by
            simp [pluginKeys] at hkp
            obtain ⟨k0, p0⟩ := kp
            simp at hkp
            rw [hkp.1]
            simp [configurationKeys, List.lookup]
          have hok := normal_entry_plugin hnc htable he
          rw [Bool.and_eq_true] at hok
          have hmem2 : kp.2.2 ∈ pid := by simpa using hok.1
          simp [hl, hok.2, hmem2]
      have hunk : unknownKeyErrors entries = [] := by
        refine filterMap_nil_of_pointwise ?_
        intro e hm
        have he := hall _ hm
        simp [normal_entry_recognized he]
      have hmain : validateMappings (.obj entries) pid = ⟨.obj entries, none⟩ := by
        simp [validateMappings, hpv, hPP, hkept, hdt, hcfg, hplg, hunk]
      exact ⟨hmain, hP, by rw [hmain]; exact hmain⟩
  | str s => exact absurd hpe (by simp)
  | num m => exact absurd hpe (by simp)
  | bool b => exact absurd hpe (by simp)
  | null => exact absurd hpe (by simp)
  | undef => exact absurd hpe (by simp)
  | arr xs => exact absurd hpe (by simp)


/-- A fully normalized field tree: a text field with a boolean `store`, and
an object field with a nested keyword field. -/
def normalFieldsFixture : List (String × JsonValue) :=
  [("title", .obj [("type", .str "text"), ("store", .bool true)]),
   ("author", .obj [("type", .str "object"),
     ("properties", .obj [("name", .obj [("type", .str "keyword")])])])]

/-- A fully normalized mappings document over `normalFieldsFixture`. -/
def normalFixture : List (String × JsonValue) :=
  [("dynamic", .bool true),
   ("date_detection", .bool true),
   ("properties", .obj normalFieldsFixture),
   ("dynamic_templates", .arr [])]

set_option maxRecDepth 8000 in
set_option maxHeartbeats 2000000 in
/-- Witness for C6 at the concrete normalized fixture. -/
theorem validate_normalized_idempotent_witness :
    (NormalMappings [] normalFixture = true ∧
      NormalFields normalFieldsFixture = true) ∧
    (validateMappings (.obj normalFixture) [] =
        ⟨.obj normalFixture, none⟩ ∧
      validateProperties (.obj normalFieldsFixture) =
        ⟨normalFieldsFixture, []⟩ ∧
      validateMappings (validateMappings (.obj normalFixture) []).value [] =
        validateMappings (.obj normalFixture) []) := by
  have hF : NormalFields normalFieldsFixture = true := by
    simp [normalFieldsFixture, NormalFields, NormalFieldEntries, dataTypes,
      parametersDefinition, List.lookup, isBoolValue]
  have hN : NormalMappings [] normalFixture = true := by
    simp [normalFixture, NormalMappings, NormalMappingsEntry,
      configurationKeys, pluginKeys, List.lookup, isDynamicValue, isBoolValue,
      isArrayValue, hF]
  exact ⟨⟨hN, hF⟩,
    validate_normalized_idempotent [] normalFixture normalFieldsFixture hN hF⟩


/-- **C8.**  Validation never short-circuits and maintains the stripping
invariants.  The traversal is total (the functions below are total Lean
functions) and per-entry independent: each level is the `filterMap` of the
per-entry survivors paired with the `flatMap` of the per-entry errors, so the
insertion order of surviving keys matches input order and an invalid entry
never prevents validation of its siblings.  Every error carries a
dot-separated path below the parent path.  Under key hygiene, a dropped
properties entry yields exactly one `ERR_FIELD` at its exact dotted path,
its key is absent from the value, and every error at that exact path is that
`ERR_FIELD`; a kept entry appears in the value and has no `ERR_FIELD` at its
path.  Likewise a stripped parameter yields exactly one `ERR_PARAMETER`
carrying the field path and its name and is absent from the cleaned node,
while a kept parameter survives with no `ERR_PARAMETER` for it. -/
theorem validator_invariants (p : String) :
    (∀ l : List (String × JsonValue),
      validateFields p l =
        (l.filterMap (fieldEntryValue p), l.flatMap (fieldEntryErrors p))) ∧
    (∀ (fp : String) (l : List (String × JsonValue)),
      validateFieldEntries fp l =
        (l.filterMap (paramEntryValue fp), l.flatMap (paramEntryErrors fp))) ∧
    (∀ l : List (String × JsonValue), ∀ err ∈ (validateFields p l).2,
      ∃ u, errPath err = joinPath p u) ∧
    (∀ (l : List (String × JsonValue)) (name : String) (v : JsonValue),
      KeyHygienic l → (name, v) ∈ l →
      (fieldEntryValue p (name, v) = none →
        List.count (.field (joinPath p name)) (validateFields p l).2 = 1 ∧
        (∀ w, (name, w) ∉ (validateFields p l).1) ∧
        (∀ err ∈ (validateFields p l).2, errPath err = joinPath p name →
          err = .field (joinPath p name))) ∧
      (∀ r, fieldEntryValue p (name, v) = some r →
        r ∈ (validateFields p l).1 ∧
        ValidationError.field (joinPath p name) ∉ (validateFields p l).2)) ∧
    (∀ fp : String, fp ≠ "" →
      ∀ l : List (String × JsonValue), (l.map Prod.fst).Nodup →
      ∀ (key : String) (v : JsonValue), (key, v) ∈ l →
      (paramEntryValue fp (key, v) = none →
        List.count (.parameter fp key) (validateFieldEntries fp l).2 = 1 ∧
        ∀ w, (key, w) ∉ (validateFieldEntries fp l).1) ∧
      (∀ r, paramEntryValue fp (key, v) = some r →
        r ∈ (validateFieldEntries fp l).1 ∧
        ValidationError.parameter fp key ∉ (validateFieldEntries fp l).2)) := by
  refine ⟨validateFields_eq_decomp p, validateFieldEntries_eq_decomp,
    fun l => validateFields_error_path p l, ?_, ?_⟩
  · intro l name v hh hin
    exact ⟨fun hdrop => dropped_entry_spec hh hin hdrop,
      fun r hkeep => kept_entry_spec hh hin hkeep⟩
  · intro fp hfp l hnd key v hin
    exact ⟨fun hdrop => stripped_param_spec hfp hnd hin hdrop,
      fun r hkeep => kept_param_spec hfp hnd hin hkeep⟩

/-- Witness for C8: the hygiene-guarded clauses at a concrete two-entry
list whose first entry is dropped. -/
theorem validator_invariants_witness :
    KeyHygienic [("a", JsonValue.str "x"),
      ("b", JsonValue.obj [("type", JsonValue.str "text")])] ∧
    ("a", JsonValue.str "x") ∈
      [("a", JsonValue.str "x"),
        ("b", JsonValue.obj [("type", JsonValue.str "text")])] ∧
    fieldEntryValue "" ("a", JsonValue.str "x") = none ∧
    (List.count (ValidationError.field (joinPath "" "a"))
        (validateFields ""
          [("a", JsonValue.str "x"),
            ("b", JsonValue.obj [("type", JsonValue.str "text")])]).2 = 1 ∧
      (∀ w, ("a", w) ∉
        (validateFields ""
          [("a", JsonValue.str "x"),
            ("b", JsonValue.obj [("type", JsonValue.str "text")])]).1) ∧
      (∀ err ∈ (validateFields ""
          [("a", JsonValue.str "x"),
            ("b", JsonValue.obj [("type", JsonValue.str "text")])]).2,
        errPath err = joinPath "" "a" →
          err = ValidationError.field (joinPath "" "a"))) := by
  have hh : KeyHygienic [("a", JsonValue.str "x"),
      ("b", JsonValue.obj [("type", JsonValue.str "text")])] :=
    ⟨by decide, by decide⟩
  have hin : ("a", JsonValue.str "x") ∈
      [("a", JsonValue.str "x"),
        ("b", JsonValue.obj [("type", JsonValue.str "text")])] :=
    List.mem_cons_self _ _
  have hdrop : fieldEntryValue "" ("a", JsonValue.str "x") = none := rfl
  exact ⟨hh, hin, hdrop,
    ((validator_invariants "").2.2.2.1 _ "a" (JsonValue.str "x") hh hin).1 hdrop⟩

end MappingsValidator
